import Mathlib

/-!
Crank-Nicolson evolver (`ql/FiniteDifferences/cranknicolson.hpp`)

A shallow embedding of the class template `CrankNicolson<Operator>`.

* The template parameter `Operator` is a record of the operations the header
  requires of it (`OperatorInterface`): the header only names them, their
  bodies live in the operator classes.
* The mutable object `*this` is the record `CrankNicolson` of the four data
  members; a member function takes the record and returns the new one.
* `Time` (a `double` in the library) is a type parameter: the evolver itself
  needs `0`, `2` and a division of it. Results on numbers take it to be a
  field, that is, exact arithmetic.
* The preprocessor switch `QL_TEMPLATE_METAPROGRAMMING_WORKS` is the Boolean
  argument `tmw` of `step`.
* Exceptions of the operator's member functions are the subject of a second
  embedding of `step` (`Throwing.step`), which returns what the call leaves
  behind together with the exception, if any.
-/

namespace QuantLib
namespace FiniteDifferences

/-- The part of the template parameter `Operator` that the evolver uses to
build operators: the static flag `Operator::isTimeDependent`, the default
constructor (the members `explicitPart` and `implicitPart` are
default-constructed), `operator*(double, const Operator&)`, and the sum and
the difference of `Identity<arrayType>()` with an operator (comment block of
lines 54-75 and the expressions of lines 89-90). -/
structure OperatorAlgebra (Time Op : Type) where
  /-- The static flag `Operator::isTimeDependent`. -/
  isTimeDependent : Bool
  /-- The default-constructed operator `Operator()`. -/
  defaultOp : Op
  /-- The operator `c*op`. -/
  scale : Time → Op → Op
  /-- The operator `Identity<arrayType>()+op`. -/
  identityPlus : Op → Op
  /-- The operator `Identity<arrayType>()-op`. -/
  identityMinus : Op → Op

/-- The template parameter `Operator` with member functions that always
return: `setTime`, `applyTo` and `solveFor` of lines 65-70. -/
structure OperatorInterface (Time Op Arr : Type) extends OperatorAlgebra Time Op where
  /-- The operator after `D.setTime(t)`. -/
  setTime : Time → Op → Op
  /-- The array `op.applyTo(a)`. -/
  applyTo : Op → Arr → Arr
  /-- The array `op.solveFor(a)`. -/
  solveFor : Op → Arr → Arr

/-- Data members of `CrankNicolson<Operator>` (lines 92-93). -/
structure CrankNicolson (Time Op : Type) where
  /-- The member `D`. -/
  D : Op
  /-- The member `explicitPart`. -/
  explicitPart : Op
  /-- The member `implicitPart`. -/
  implicitPart : Op
  /-- The member `dt`. -/
  dt : Time

/-- The expression `Identity<arrayType>()-(dt/2)*D`. -/
def explicitHalf {Time Op : Type} [Div Time] [OfNat Time 2]
    (alg : OperatorAlgebra Time Op) (dt : Time) (D : Op) : Op :=
  alg.identityMinus (alg.scale (dt / 2) D)

/-- The expression `Identity<arrayType>()+(dt/2)*D`. -/
def implicitHalf {Time Op : Type} [Div Time] [OfNat Time 2]
    (alg : OperatorAlgebra Time Op) (dt : Time) (D : Op) : Op :=
  alg.identityPlus (alg.scale (dt / 2) D)

/-- The constructor `CrankNicolson(const operatorType& D) : D(D), dt(0.0) {}`:
the two halves are not in the initialiser list and are default-constructed. -/
def CrankNicolson.init {Time Op : Type} [Zero Time]
    (alg : OperatorAlgebra Time Op) (D : Op) : CrankNicolson Time Op :=
  ⟨D, alg.defaultOp, alg.defaultOp, 0⟩

/-- The member function `setStep(Time dt)` (lines 87-91). -/
def CrankNicolson.setStep {Time Op : Type} [Div Time] [OfNat Time 2]
    (alg : OperatorAlgebra Time Op) (cn : CrankNicolson Time Op) (dt : Time) :
    CrankNicolson Time Op :=
  ⟨cn.D, explicitHalf alg dt cn.D, implicitHalf alg dt cn.D, dt⟩

/-- `CrankNicolsonTimeSetter<0>::setTime` (lines 104-112): an empty body. -/
def CrankNicolsonTimeSetter0.setTime {Time Op Arr : Type}
    (_ops : OperatorInterface Time Op Arr) (cn : CrankNicolson Time Op) (_t : Time) :
    CrankNicolson Time Op :=
  cn

/-- `CrankNicolsonTimeSetter<1>::setTime` (lines 117-131): the arguments `D`,
`explicitPart`, `implicitPart` are references to the members, and `dt` is the
member passed by value. -/
def CrankNicolsonTimeSetter1.setTime {Time Op Arr : Type} [Div Time] [OfNat Time 2]
    (ops : OperatorInterface Time Op Arr) (cn : CrankNicolson Time Op) (t : Time) :
    CrankNicolson Time Op :=
  let D1 := ops.setTime t cn.D
  ⟨D1, explicitHalf ops.toOperatorAlgebra cn.dt D1,
    implicitHalf ops.toOperatorAlgebra cn.dt D1, cn.dt⟩

/-- The dispatch `CrankNicolsonTimeSetter<Operator::isTimeDependent>::setTime`
of line 140. -/
def CrankNicolsonTimeSetter.setTime {Time Op Arr : Type} [Div Time] [OfNat Time 2]
    (ops : OperatorInterface Time Op Arr) (cn : CrankNicolson Time Op) (t : Time) :
    CrankNicolson Time Op :=
  match ops.isTimeDependent with
  | false => CrankNicolsonTimeSetter0.setTime ops cn t
  | true => CrankNicolsonTimeSetter1.setTime ops cn t

/-- Lines 139-148 of `step`: the update of the members that precedes the
assignment to `a`, in the variant chosen by
`QL_TEMPLATE_METAPROGRAMMING_WORKS` (the argument `tmw`). -/
def CrankNicolson.timeUpdate {Time Op Arr : Type} [Div Time] [OfNat Time 2]
    (tmw : Bool) (ops : OperatorInterface Time Op Arr) (cn : CrankNicolson Time Op)
    (t : Time) : CrankNicolson Time Op :=
  if tmw then
    CrankNicolsonTimeSetter.setTime ops cn t
  else if ops.isTimeDependent then
    let D1 := ops.setTime t cn.D
    ⟨D1, explicitHalf ops.toOperatorAlgebra cn.dt D1,
      implicitHalf ops.toOperatorAlgebra cn.dt D1, cn.dt⟩
  else
    cn

/-- The member function `step(arrayType& a, Time t)` (lines 137-150): returns
the evolver after the call and the new contents of `a`. -/
def CrankNicolson.step {Time Op Arr : Type} [Div Time] [OfNat Time 2]
    (tmw : Bool) (ops : OperatorInterface Time Op Arr) (cn : CrankNicolson Time Op)
    (a : Arr) (t : Time) : CrankNicolson Time Op × Arr :=
  let cn1 := cn.timeUpdate tmw ops t
  (cn1, ops.solveFor cn1.implicitPart (ops.applyTo cn1.explicitPart a))

/-! ## Call sequences

The evolver is driven by its friend class `FiniteDifferenceModel`, which is
not part of the header: a sequence of calls is a list. -/

/-- Successive calls `step(a, t)` on the same array `a`, one for each time of
the list, in order. -/
def CrankNicolson.steps {Time Op Arr : Type} [Div Time] [OfNat Time 2]
    (tmw : Bool) (ops : OperatorInterface Time Op Arr) :
    CrankNicolson Time Op → Arr → List Time → CrankNicolson Time Op × Arr
  | cn, a, [] => (cn, a)
  | cn, a, t :: ts =>
    CrankNicolson.steps tmw ops (cn.step tmw ops a t).1 (cn.step tmw ops a t).2 ts

/-- One call of a member function of the evolver. -/
inductive Call (Time Arr : Type) where
  /-- The call `setStep(dt)`. -/
  | setStep (dt : Time)
  /-- The call `step(a, t)`. -/
  | step (a : Arr) (t : Time)

/-- The evolver after one call. -/
def CrankNicolson.call {Time Op Arr : Type} [Div Time] [OfNat Time 2]
    (tmw : Bool) (ops : OperatorInterface Time Op Arr) (cn : CrankNicolson Time Op) :
    Call Time Arr → CrankNicolson Time Op
  | Call.setStep dt => cn.setStep ops.toOperatorAlgebra dt
  | Call.step a t => (cn.step tmw ops a t).1

/-- The evolver after a sequence of calls, made in order. -/
def CrankNicolson.run {Time Op Arr : Type} [Div Time] [OfNat Time 2]
    (tmw : Bool) (ops : OperatorInterface Time Op Arr) (cn : CrankNicolson Time Op)
    (calls : List (Call Time Arr)) : CrankNicolson Time Op :=
  calls.foldl (CrankNicolson.call tmw ops) cn

/-- The halves held are the ones built from the members `D` and `dt`:
`explicitPart = Identity - (dt/2)*D` and `implicitPart = Identity + (dt/2)*D`. -/
def CrankNicolson.HalvesCurrent {Time Op : Type} [Div Time] [OfNat Time 2]
    (alg : OperatorAlgebra Time Op) (cn : CrankNicolson Time Op) : Prop :=
  cn.explicitPart = alg.identityMinus (alg.scale (cn.dt / 2) cn.D)
    ∧ cn.implicitPart = alg.identityPlus (alg.scale (cn.dt / 2) cn.D)

/-- The manual sequence that the specification gives for one step with a
time-dependent operator: call `D.setTime(t)`, rebuild
`explicitPart = Identity - (dt/2)*D` and `implicitPart = Identity + (dt/2)*D`
from the updated `D` and the stored `dt`, then set
`a := implicitPart.solveFor(explicitPart.applyTo(a))`. -/
def manualStep {Time Op Arr : Type} [Div Time] [OfNat Time 2]
    (ops : OperatorInterface Time Op Arr) (cn : CrankNicolson Time Op) (a : Arr)
    (t : Time) : CrankNicolson Time Op × Arr :=
  let updatedD := ops.setTime t cn.D
  let rebuiltExplicit := ops.identityMinus (ops.scale (cn.dt / 2) updatedD)
  let rebuiltImplicit := ops.identityPlus (ops.scale (cn.dt / 2) updatedD)
  (⟨updatedD, rebuiltExplicit, rebuiltImplicit, cn.dt⟩,
    ops.solveFor rebuiltImplicit (ops.applyTo rebuiltExplicit a))

/-- The operator `op` is one "whose `solveFor` inverts its `applyTo`":
`op.solveFor(b)` is a solution `x` of `op.applyTo(x) = b`, for every `b`. -/
def SolveForInverts {Time Op Arr : Type} (ops : OperatorInterface Time Op Arr)
    (op : Op) : Prop :=
  ∀ b : Arr, ops.applyTo op (ops.solveFor op b) = b

/-- The `solveFor` of the operator `op` inverts its `applyTo`: `op.solveFor(b)`
solves `op.applyTo(x) = b` for every `b`, and it is the only solution, that is,
`op.solveFor(op.applyTo(v))` is `v` for every `v`. -/
def SolveForIsInverse {Time Op Arr : Type} (ops : OperatorInterface Time Op Arr)
    (op : Op) : Prop :=
  (∀ b : Arr, ops.applyTo op (ops.solveFor op b) = b)
    ∧ ∀ v : Arr, ops.solveFor op (ops.applyTo op v) = v

/-- The Crank-Nicolson equation
`(Identity + (dt/2)*D) x = (Identity - (dt/2)*D) a` for the members `D` and
`dt` of the evolver `cn`. -/
def CrankNicolson.SolvesScheme {Time Op Arr : Type} [Div Time] [OfNat Time 2]
    (ops : OperatorInterface Time Op Arr) (cn : CrankNicolson Time Op) (a x : Arr) :
    Prop :=
  ops.applyTo (ops.identityPlus (ops.scale (cn.dt / 2) cn.D)) x
    = ops.applyTo (ops.identityMinus (ops.scale (cn.dt / 2) cn.D)) a

/-- The operator algebra is the algebra of linear maps at the operator `D`:
`Identity - c*D` maps `v` to `v - c*(D v)` and `Identity + c*D` maps `v` to
`v + c*(D v)`, for every number `c`. -/
def HalvesAct {K Op Arr : Type} [Field K] [AddCommGroup Arr] [Module K Arr]
    (ops : OperatorInterface K Op Arr) (D : Op) : Prop :=
  (∀ (c : K) (v : Arr),
      ops.applyTo (ops.identityMinus (ops.scale c D)) v = v - c • ops.applyTo D v)
    ∧ (∀ (c : K) (v : Arr),
      ops.applyTo (ops.identityPlus (ops.scale c D)) v = v + c • ops.applyTo D v)

/-- The operator `D` is a zero operator: its `applyTo` returns the zero vector,
the operator algebra is the one of linear maps at `D`, and every implicit half
`Identity + c*D` built from it is solvable. -/
def IsZeroOperator {K Op Arr : Type} [Field K] [AddCommGroup Arr] [Module K Arr]
    (ops : OperatorInterface K Op Arr) (D : Op) : Prop :=
  (∀ v : Arr, ops.applyTo D v = 0)
    ∧ HalvesAct ops D
    ∧ ∀ c : K, SolveForInverts ops (ops.identityPlus (ops.scale c D))

/-- The operator `D` is positive semidefinite: `⟨D v, v⟩ ≥ 0` for every `v`. -/
def PositiveSemidefinite {Op E : Type} [NormedAddCommGroup E] [InnerProductSpace ℝ E]
    (ops : OperatorInterface ℝ Op E) (D : Op) : Prop :=
  ∀ v : E, 0 ≤ @inner ℝ E _ (ops.applyTo D v) v

/-! ## A concrete operator: the 1×1 operator "multiply by `c`" -/

/-- Modelled from the spec: the 1×1 operator "multiply by `c`" of the
scenarios (no operator class is part of the header). An operator is its
coefficient `c` and an array is its single entry: `applyTo` multiplies by `c`,
`solveFor` solves `c*x = b` by a division, the algebra acts on the coefficient
(`Identity` is the coefficient `1`), the default-constructed operator has the
coefficient `0`, and `setTime t` replaces the coefficient `c` by
`coeffAt t c`. -/
def scalarOperator (K : Type) [Field K] (timeDependent : Bool) (coeffAt : K → K → K) :
    OperatorInterface K K K where
  isTimeDependent := timeDependent
  defaultOp := 0
  scale := fun s c => s * c
  identityPlus := fun c => 1 + c
  identityMinus := fun c => 1 - c
  setTime := coeffAt
  applyTo := fun c a => c * a
  solveFor := fun c b => b / c

/-! ## Operator calls that may throw

The same member functions, for an operator whose `setTime`, `applyTo` and
`solveFor` may throw. An exception leaves the function at once; the members
and the caller's array keep what was assigned to them before. The operator
algebra and the copies of operators and arrays are taken not to throw, and
`applyTo` and `solveFor` not to modify the operator. -/

/-- The template parameter `Operator` with member functions that may throw an
exception of type `Err`. A throwing `setTime` also yields the operator it left
behind, since it works on the member `D` in place. -/
structure ThrowingOperatorInterface (Err Time Op Arr : Type) extends
    OperatorAlgebra Time Op where
  /-- The call `D.setTime(t)`: the operator after a call that returns, or the
  exception and the operator left behind. -/
  setTime : Time → Op → Except (Err × Op) Op
  /-- The call `op.applyTo(a)`. -/
  applyTo : Op → Arr → Except Err Arr
  /-- The call `op.solveFor(a)`. -/
  solveFor : Op → Arr → Except Err Arr

/-- A call of a member function of the operator made by `step`. -/
inductive OperatorCall (Time Op Arr : Type) where
  /-- The call `D.setTime(t)`, on the operator `D`. -/
  | setTime (t : Time) (D : Op)
  /-- The call `op.applyTo(a)`. -/
  | applyTo (op : Op) (a : Arr)
  /-- The call `op.solveFor(b)`. -/
  | solveFor (op : Op) (b : Arr)

/-- What a call of `step` leaves: the exception that left it, if any, the
evolver, the caller's array, and the operator calls made, in order. -/
structure StepOutcome (Err Time Op Arr : Type) where
  /-- The exception that propagates to the caller; `none` when `step` returns. -/
  thrown : Option Err
  /-- The evolver after the call. -/
  evolver : CrankNicolson Time Op
  /-- The caller's array after the call. -/
  a : Arr
  /-- The calls of operator member functions made, in order. -/
  calls : List (OperatorCall Time Op Arr)

/-- `CrankNicolsonTimeSetter<0>::setTime` (lines 104-112): nothing is called,
nothing is thrown. The array `a` of the caller of `step` is carried along
untouched. -/
def Throwing.CrankNicolsonTimeSetter0.setTime {Err Time Op Arr : Type}
    (_ops : ThrowingOperatorInterface Err Time Op Arr) (cn : CrankNicolson Time Op)
    (a : Arr) (_t : Time) : StepOutcome Err Time Op Arr :=
  ⟨none, cn, a, []⟩

/-- `CrankNicolsonTimeSetter<1>::setTime` (lines 117-131): when `D.setTime(t)`
throws, the two assignments that follow it are not made. The array `a` of the
caller of `step` is carried along untouched. -/
def Throwing.CrankNicolsonTimeSetter1.setTime {Err Time Op Arr : Type}
    [Div Time] [OfNat Time 2]
    (ops : ThrowingOperatorInterface Err Time Op Arr) (cn : CrankNicolson Time Op)
    (a : Arr) (t : Time) : StepOutcome Err Time Op Arr :=
  match ops.setTime t cn.D with
  | Except.error (e, D1) =>
    ⟨some e, ⟨D1, cn.explicitPart, cn.implicitPart, cn.dt⟩, a,
      [OperatorCall.setTime t cn.D]⟩
  | Except.ok D1 =>
    ⟨none, ⟨D1, explicitHalf ops.toOperatorAlgebra cn.dt D1,
        implicitHalf ops.toOperatorAlgebra cn.dt D1, cn.dt⟩, a,
      [OperatorCall.setTime t cn.D]⟩

/-- Lines 139-148 of `step`, for an operator that may throw, in the variant
chosen by `QL_TEMPLATE_METAPROGRAMMING_WORKS` (the argument `tmw`): the
outcome so far, before `a` is touched. -/
def Throwing.timeUpdate {Err Time Op Arr : Type} [Div Time] [OfNat Time 2]
    (tmw : Bool) (ops : ThrowingOperatorInterface Err Time Op Arr)
    (cn : CrankNicolson Time Op) (a : Arr) (t : Time) : StepOutcome Err Time Op Arr :=
  if tmw then
    match ops.isTimeDependent with
    | false => Throwing.CrankNicolsonTimeSetter0.setTime ops cn a t
    | true => Throwing.CrankNicolsonTimeSetter1.setTime ops cn a t
  else if ops.isTimeDependent then
    match ops.setTime t cn.D with
    | Except.error (e, D1) =>
      ⟨some e, ⟨D1, cn.explicitPart, cn.implicitPart, cn.dt⟩, a,
        [OperatorCall.setTime t cn.D]⟩
    | Except.ok D1 =>
      ⟨none, ⟨D1, explicitHalf ops.toOperatorAlgebra cn.dt D1,
          implicitHalf ops.toOperatorAlgebra cn.dt D1, cn.dt⟩, a,
        [OperatorCall.setTime t cn.D]⟩
  else
    ⟨none, cn, a, []⟩

/-- Line 149 of `step`, `a = implicitPart.solveFor(explicitPart.applyTo(a));`,
for an operator that may throw: the assignment to `a` is made once `solveFor`
has returned. -/
def Throwing.solveAndAssign {Err Time Op Arr : Type}
    (ops : ThrowingOperatorInterface Err Time Op Arr)
    (out : StepOutcome Err Time Op Arr) : StepOutcome Err Time Op Arr :=
  match ops.applyTo out.evolver.explicitPart out.a with
  | Except.error e =>
    ⟨some e, out.evolver, out.a,
      out.calls ++ [OperatorCall.applyTo out.evolver.explicitPart out.a]⟩
  | Except.ok b =>
    match ops.solveFor out.evolver.implicitPart b with
    | Except.error e =>
      ⟨some e, out.evolver, out.a,
        out.calls ++ [OperatorCall.applyTo out.evolver.explicitPart out.a,
          OperatorCall.solveFor out.evolver.implicitPart b]⟩
    | Except.ok x =>
      ⟨none, out.evolver, x,
        out.calls ++ [OperatorCall.applyTo out.evolver.explicitPart out.a,
          OperatorCall.solveFor out.evolver.implicitPart b]⟩

/-- The member function `step(arrayType& a, Time t)` (lines 137-150) for an
operator that may throw: an exception of lines 139-148 skips line 149. -/
def Throwing.step {Err Time Op Arr : Type} [Div Time] [OfNat Time 2]
    (tmw : Bool) (ops : ThrowingOperatorInterface Err Time Op Arr)
    (cn : CrankNicolson Time Op) (a : Arr) (t : Time) : StepOutcome Err Time Op Arr :=
  match (Throwing.timeUpdate tmw ops cn a t).thrown with
  | some _ => Throwing.timeUpdate tmw ops cn a t
  | none => Throwing.solveAndAssign ops (Throwing.timeUpdate tmw ops cn a t)

/-- An operator whose member functions always return, seen as one that may
throw (and never does). -/
def OperatorInterface.toThrowing {Time Op Arr : Type} (Err : Type)
    (ops : OperatorInterface Time Op Arr) : ThrowingOperatorInterface Err Time Op Arr where
  toOperatorAlgebra := ops.toOperatorAlgebra
  setTime := fun t D => Except.ok (ops.setTime t D)
  applyTo := fun op a => Except.ok (ops.applyTo op a)
  solveFor := fun op b => Except.ok (ops.solveFor op b)

/-- The exception of the 1×1 operators: the system to solve is singular. -/
inductive ScalarOperatorError where
  /-- Thrown by `solveFor` for the coefficient `0`. -/
  | singular
  deriving DecidableEq

/-- Modelled from the spec: the 1×1 operator "multiply by `c`" of the
scenarios, with a `solveFor` that reports a solver error for the singular
system `0*x = b` (no operator class is part of the header). -/
def Throwing.scalarOperator (K : Type) [Field K] [DecidableEq K] (timeDependent : Bool)
    (coeffAt : K → K → K) : ThrowingOperatorInterface ScalarOperatorError K K K where
  isTimeDependent := timeDependent
  defaultOp := 0
  scale := fun s c => s * c
  identityPlus := fun c => 1 + c
  identityMinus := fun c => 1 - c
  setTime := fun t c => Except.ok (coeffAt t c)
  applyTo := fun c a => Except.ok (c * a)
  solveFor := fun c b => if c = 0 then Except.error ScalarOperatorError.singular
    else Except.ok (b / c)

/-- The exception with which an operator call is left, `none` when the call
returns. -/
def OperatorCall.error {Err Time Op Arr : Type}
    (ops : ThrowingOperatorInterface Err Time Op Arr) :
    OperatorCall Time Op Arr → Option Err
  | OperatorCall.setTime t D =>
    match ops.setTime t D with
    | Except.error (e, _) => some e
    | Except.ok _ => none
  | OperatorCall.applyTo op a =>
    match ops.applyTo op a with
    | Except.error e => some e
    | Except.ok _ => none
  | OperatorCall.solveFor op b =>
    match ops.solveFor op b with
    | Except.error e => some e
    | Except.ok _ => none

/-- The member function called: 0 for `setTime`, 1 for `applyTo`, 2 for
`solveFor`, the order of the calls in the body of `step`. -/
def OperatorCall.kind {Time Op Arr : Type} : OperatorCall Time Op Arr → Nat
  | OperatorCall.setTime _ _ => 0
  | OperatorCall.applyTo _ _ => 1
  | OperatorCall.solveFor _ _ => 2

/-- The map `a ↦ implicitPart.solveFor(explicitPart.applyTo(a))` of the halves
the evolver holds (the right-hand side of line 149). -/
def CrankNicolson.propagate {Time Op Arr : Type} (ops : OperatorInterface Time Op Arr)
    (cn : CrankNicolson Time Op) (a : Arr) : Arr :=
  ops.solveFor cn.implicitPart (ops.applyTo cn.explicitPart a)

/-! ## Theorems -/

/-! ### Helper lemmas on `step` -/

theorem timeUpdate_tmw_irrelevant {Time Op Arr : Type} [Div Time] [OfNat Time 2]
    (tmw : Bool) (ops : OperatorInterface Time Op Arr) (cn : CrankNicolson Time Op)
    (t : Time) : cn.timeUpdate tmw ops t = cn.timeUpdate false ops t := by
  cases tmw
  · rfl
  · cases h : ops.isTimeDependent <;>
      simp [CrankNicolson.timeUpdate, CrankNicolsonTimeSetter.setTime,
        CrankNicolsonTimeSetter0.setTime, CrankNicolsonTimeSetter1.setTime, h]

theorem timeUpdate_timeConstant {Time Op Arr : Type} [Div Time] [OfNat Time 2]
    (tmw : Bool) (ops : OperatorInterface Time Op Arr) (h : ops.isTimeDependent = false)
    (cn : CrankNicolson Time Op) (t : Time) : cn.timeUpdate tmw ops t = cn := by
  rw [timeUpdate_tmw_irrelevant]
  simp [CrankNicolson.timeUpdate, h]

theorem timeUpdate_timeDependent {Time Op Arr : Type} [Div Time] [OfNat Time 2]
    (tmw : Bool) (ops : OperatorInterface Time Op Arr) (h : ops.isTimeDependent = true)
    (cn : CrankNicolson Time Op) (t : Time) :
    cn.timeUpdate tmw ops t
      = ⟨ops.setTime t cn.D, ops.identityMinus (ops.scale (cn.dt / 2) (ops.setTime t cn.D)),
          ops.identityPlus (ops.scale (cn.dt / 2) (ops.setTime t cn.D)), cn.dt⟩ := by
  rw [timeUpdate_tmw_irrelevant]
  simp [CrankNicolson.timeUpdate, h, explicitHalf, implicitHalf]

theorem step_fst {Time Op Arr : Type} [Div Time] [OfNat Time 2]
    (tmw : Bool) (ops : OperatorInterface Time Op Arr) (cn : CrankNicolson Time Op)
    (a : Arr) (t : Time) : (cn.step tmw ops a t).1 = cn.timeUpdate tmw ops t :=
  rfl

theorem step_snd {Time Op Arr : Type} [Div Time] [OfNat Time 2]
    (tmw : Bool) (ops : OperatorInterface Time Op Arr) (cn : CrankNicolson Time Op)
    (a : Arr) (t : Time) :
    (cn.step tmw ops a t).2
      = ops.solveFor (cn.timeUpdate tmw ops t).implicitPart
          (ops.applyTo (cn.timeUpdate tmw ops t).explicitPart a) :=
  rfl

theorem setStep_halvesCurrent {Time Op : Type} [Div Time] [OfNat Time 2]
    (alg : OperatorAlgebra Time Op) (cn : CrankNicolson Time Op) (dt : Time) :
    (cn.setStep alg dt).HalvesCurrent alg :=
  ⟨rfl, rfl⟩

theorem timeUpdate_halvesCurrent {Time Op Arr : Type} [Div Time] [OfNat Time 2]
    (tmw : Bool) (ops : OperatorInterface Time Op Arr) (cn : CrankNicolson Time Op)
    (t : Time) (h : ops.isTimeDependent = true ∨ cn.HalvesCurrent ops.toOperatorAlgebra) :
    (cn.timeUpdate tmw ops t).HalvesCurrent ops.toOperatorAlgebra := by
  cases htd : ops.isTimeDependent
  · rw [timeUpdate_timeConstant tmw ops htd]
    rcases h with h | h
    · rw [htd] at h
      cases h
    · exact h
  · rw [timeUpdate_timeDependent tmw ops htd]
    exact ⟨rfl, rfl⟩

theorem call_halvesCurrent {Time Op Arr : Type} [Div Time] [OfNat Time 2]
    (tmw : Bool) (ops : OperatorInterface Time Op Arr) (cn : CrankNicolson Time Op)
    (c : Call Time Arr) (h : cn.HalvesCurrent ops.toOperatorAlgebra) :
    (cn.call tmw ops c).HalvesCurrent ops.toOperatorAlgebra := by
  cases c with
  | setStep dt => exact setStep_halvesCurrent ops.toOperatorAlgebra cn dt
  | step a t => exact timeUpdate_halvesCurrent tmw ops cn t (Or.inr h)

theorem run_halvesCurrent {Time Op Arr : Type} [Div Time] [OfNat Time 2]
    (tmw : Bool) (ops : OperatorInterface Time Op Arr) (calls : List (Call Time Arr)) :
    ∀ cn : CrankNicolson Time Op, cn.HalvesCurrent ops.toOperatorAlgebra →
      (cn.run tmw ops calls).HalvesCurrent ops.toOperatorAlgebra := by
  induction calls with
  | nil => intro cn h; exact h
  | cons c cs ih =>
    intro cn h
    exact ih (cn.call tmw ops c) (call_halvesCurrent tmw ops cn c h)

theorem run_init_cases {Time Op Arr : Type} [Zero Time] [Div Time] [OfNat Time 2]
    (tmw : Bool) (ops : OperatorInterface Time Op Arr) (D : Op)
    (calls : List (Call Time Arr)) :
    ∀ cn : CrankNicolson Time Op,
      (cn.HalvesCurrent ops.toOperatorAlgebra
        ∨ cn = CrankNicolson.init ops.toOperatorAlgebra D) →
      ((cn.run tmw ops calls).HalvesCurrent ops.toOperatorAlgebra
        ∨ cn.run tmw ops calls = CrankNicolson.init ops.toOperatorAlgebra D) := by
  induction calls with
  | nil => intro cn h; exact h
  | cons c cs ih =>
    intro cn h
    apply ih (cn.call tmw ops c)
    cases c with
    | setStep dt => exact Or.inl (setStep_halvesCurrent ops.toOperatorAlgebra cn dt)
    | step a t =>
      cases htd : ops.isTimeDependent
      · have hsame : cn.call tmw ops (Call.step a t) = cn :=
          timeUpdate_timeConstant tmw ops htd cn t
        rw [hsame]
        exact h
      · exact Or.inl (timeUpdate_halvesCurrent tmw ops cn t (Or.inl htd))

theorem run_steps_timeConstant {Time Op Arr : Type} [Div Time] [OfNat Time 2]
    (tmw : Bool) (ops : OperatorInterface Time Op Arr) (h : ops.isTimeDependent = false)
    (calls : List (Arr × Time)) :
    ∀ cn : CrankNicolson Time Op,
      cn.run tmw ops (calls.map fun p => Call.step p.1 p.2) = cn := by
  induction calls with
  | nil => intro cn; rfl
  | cons c cs ih =>
    intro cn
    have h1 : (cn.call tmw ops (Call.step c.1 c.2)) = cn :=
      timeUpdate_timeConstant tmw ops h cn c.2
    simp only [CrankNicolson.run, List.map_cons, List.foldl_cons, h1]
    exact ih cn

theorem steps_fst_timeConstant {Time Op Arr : Type} [Div Time] [OfNat Time 2]
    (tmw : Bool) (ops : OperatorInterface Time Op Arr) (h : ops.isTimeDependent = false)
    (ts : List Time) :
    ∀ (cn : CrankNicolson Time Op) (a : Arr), (cn.steps tmw ops a ts).1 = cn := by
  induction ts with
  | nil => intro cn a; rfl
  | cons t ts ih =>
    intro cn a
    rw [CrankNicolson.steps, ih, step_fst, timeUpdate_timeConstant tmw ops h]

theorem timeUpdate_dt {Time Op Arr : Type} [Div Time] [OfNat Time 2]
    (tmw : Bool) (ops : OperatorInterface Time Op Arr) (cn : CrankNicolson Time Op)
    (t : Time) : (cn.timeUpdate tmw ops t).dt = cn.dt := by
  cases h : ops.isTimeDependent
  · rw [timeUpdate_timeConstant tmw ops h]
  · rw [timeUpdate_timeDependent tmw ops h]

theorem step_solvesScheme {Time Op Arr : Type} [Div Time] [OfNat Time 2]
    (tmw : Bool) (ops : OperatorInterface Time Op Arr) (cn : CrankNicolson Time Op)
    (a : Arr) (t : Time)
    (hinv : SolveForInverts ops (cn.step tmw ops a t).1.implicitPart)
    (hcur : ops.isTimeDependent = true ∨ cn.HalvesCurrent ops.toOperatorAlgebra) :
    (cn.step tmw ops a t).1.SolvesScheme ops a (cn.step tmw ops a t).2 := by
  have h := timeUpdate_halvesCurrent tmw ops cn t hcur
  have hx := hinv (ops.applyTo (cn.step tmw ops a t).1.explicitPart a)
  rw [step_fst] at hx
  unfold CrankNicolson.SolvesScheme
  rw [step_fst, step_snd, ← h.1, ← h.2]
  exact hx

/-! ### Helper lemmas on the midpoint equation -/

theorem midpoint_norm_le {E : Type} [NormedAddCommGroup E] [InnerProductSpace ℝ E]
    (L : E → E) (hadd : ∀ u v, L (u + v) = L u + L v)
    (hpos : ∀ v, 0 ≤ @inner ℝ E _ (L v) v) (c : ℝ) (hc : 0 ≤ c) (x a : E)
    (h : x + c • L x = a - c • L a) : ‖x‖ ≤ ‖a‖ := by
  have hxa : x - a = -(c • L (x + a)) := by
    rw [hadd, smul_add]
    have hx : x = a - c • L a - c • L x := by rw [← h]; abel
    calc x - a = (a - c • L a - c • L x) - a := by rw [← hx]
      _ = -(c • L x + c • L a) := by abel
  have hsq : ‖x‖ ^ 2 - ‖a‖ ^ 2 = @inner ℝ E _ (x - a) (x + a) := by
    rw [inner_sub_left, inner_add_right, inner_add_right, real_inner_comm a x,
      real_inner_self_eq_norm_sq, real_inner_self_eq_norm_sq]
    ring
  have hle : ‖x‖ ^ 2 - ‖a‖ ^ 2 ≤ 0 := by
    rw [hsq, hxa, inner_neg_left, inner_smul_left]
    have hprod := mul_nonneg hc (hpos (x + a))
    simpa using hprod
  have hx := norm_nonneg x
  have ha := norm_nonneg a
  nlinarith

theorem scalar_multiplier_abs_le {K : Type} [LinearOrderedField K] (lam dt a : K)
    (hl : 0 ≤ lam) (hdt : 0 < dt) :
    |(1 - dt / 2 * lam) * a / (1 + dt / 2 * lam)| ≤ |a| := by
  have hc : 0 ≤ dt / 2 * lam := mul_nonneg (by positivity) hl
  have hden : 0 < 1 + dt / 2 * lam := by linarith
  rw [abs_div, abs_mul, abs_of_pos hden, div_le_iff₀ hden]
  have h1 : |1 - dt / 2 * lam| ≤ 1 + dt / 2 * lam := by
    rw [abs_le]; constructor <;> linarith
  calc |1 - dt / 2 * lam| * |a| ≤ (1 + dt / 2 * lam) * |a| :=
        mul_le_mul_of_nonneg_right h1 (abs_nonneg a)
    _ = |a| * (1 + dt / 2 * lam) := by ring

theorem scalar_step_after_setStep {K : Type} [Field K] (tmw : Bool) (coeffAt : K → K → K)
    (cn : CrankNicolson K K) (dt a t : K) :
    ((cn.setStep (scalarOperator K false coeffAt).toOperatorAlgebra dt).step tmw
        (scalarOperator K false coeffAt) a t)
      = (⟨cn.D, 1 - dt / 2 * cn.D, 1 + dt / 2 * cn.D, dt⟩,
          (1 - dt / 2 * cn.D) * a / (1 + dt / 2 * cn.D)) := by
  rw [CrankNicolson.step, timeUpdate_timeConstant tmw _ rfl]
  rfl

/-! ### Helper lemmas on the zero operator -/

theorem step_zero_operator {K Op Arr : Type} [Field K] [AddCommGroup Arr] [Module K Arr]
    (tmw : Bool) (ops : OperatorInterface K Op Arr) (cn : CrankNicolson K Op)
    (a : Arr) (t : K) (hzero : IsZeroOperator ops cn.D)
    (hset : ops.isTimeDependent = true →
      ∀ (s : K) (D : Op), IsZeroOperator ops D → IsZeroOperator ops (ops.setTime s D))
    (hcur : cn.HalvesCurrent ops.toOperatorAlgebra) :
    (cn.step tmw ops a t).2 = a ∧ IsZeroOperator ops (cn.step tmw ops a t).1.D
      ∧ (cn.step tmw ops a t).1.HalvesCurrent ops.toOperatorAlgebra := by
  have hcur1 := timeUpdate_halvesCurrent tmw ops cn t (Or.inr hcur)
  have hD : IsZeroOperator ops (cn.timeUpdate tmw ops t).D := by
    cases h : ops.isTimeDependent
    · rw [timeUpdate_timeConstant tmw ops h]
      exact hzero
    · rw [timeUpdate_timeDependent tmw ops h]
      exact hset h t cn.D hzero
  refine ⟨?_, hD, hcur1⟩
  obtain ⟨hz, hact, hsolve⟩ := hD
  rw [step_snd, hcur1.1, hcur1.2, hact.1, hz, smul_zero, sub_zero]
  have hx := hsolve ((cn.timeUpdate tmw ops t).dt / 2) a
  rw [hact.2, hz, smul_zero, add_zero] at hx
  exact hx

theorem steps_zero_operator {K Op Arr : Type} [Field K] [AddCommGroup Arr] [Module K Arr]
    (tmw : Bool) (ops : OperatorInterface K Op Arr) (a : Arr)
    (hset : ops.isTimeDependent = true →
      ∀ (s : K) (D : Op), IsZeroOperator ops D → IsZeroOperator ops (ops.setTime s D))
    (ts : List K) :
    ∀ cn : CrankNicolson K Op, IsZeroOperator ops cn.D →
      cn.HalvesCurrent ops.toOperatorAlgebra → (cn.steps tmw ops a ts).2 = a := by
  induction ts with
  | nil => intro cn _ _; rfl
  | cons t ts ih =>
    intro cn hzero hcur
    obtain ⟨h1, h2, h3⟩ := step_zero_operator tmw ops cn a t hzero hset hcur
    rw [CrankNicolson.steps, h1]
    exact ih _ h2 h3

/-! ### Helper lemmas on repeated steps of a time-constant operator -/

theorem step_timeConstant {Time Op Arr : Type} [Div Time] [OfNat Time 2]
    (tmw : Bool) (ops : OperatorInterface Time Op Arr) (h : ops.isTimeDependent = false)
    (cn : CrankNicolson Time Op) (a : Arr) (t : Time) :
    cn.step tmw ops a t = (cn, cn.propagate ops a) := by
  unfold CrankNicolson.step
  rw [timeUpdate_timeConstant tmw ops h]
  rfl

theorem steps_timeConstant {Time Op Arr : Type} [Div Time] [OfNat Time 2]
    (tmw : Bool) (ops : OperatorInterface Time Op Arr) (h : ops.isTimeDependent = false)
    (cn : CrankNicolson Time Op) (ts : List Time) :
    ∀ a : Arr, cn.steps tmw ops a ts = (cn, (cn.propagate ops)^[ts.length] a) := by
  induction ts with
  | nil => intro a; rfl
  | cons t ts ih =>
    intro a
    rw [CrankNicolson.steps, step_timeConstant tmw ops h, ih, List.length_cons,
      Function.iterate_succ_apply]

/-! ### Helper lemmas on the order of accuracy -/

theorem multiplier_sub_exp_le (z : ℝ) (hz : |z| ≤ 1) :
    |(1 - z / 2) / (1 + z / 2) - Real.exp (-z)| ≤ 13 / 18 * |z| ^ 3 := by
  have hz' : |(-z)| ≤ 1 := by rwa [abs_neg]
  have hexp := @Real.exp_bound (-z) hz' 3 (by norm_num)
  simp only [Finset.sum_range_succ, Finset.sum_range_zero, Nat.factorial, abs_neg] at hexp
  norm_num at hexp
  obtain ⟨hlo, hhi⟩ := abs_le.mp hz
  have hden : (1 : ℝ) / 2 ≤ 1 + z / 2 := by linarith
  have hden0 : (0 : ℝ) < 1 + z / 2 := by linarith
  have hrat : (1 - z / 2) / (1 + z / 2) - (1 - z + z ^ 2 / 2)
      = -(z ^ 3 / 4) / (1 + z / 2) := by
    have hne : 1 + z / 2 ≠ 0 := hden0.ne'
    have hne2 : 2 + z ≠ 0 := by linarith
    field_simp
    ring
  have hrat_le : |(1 - z / 2) / (1 + z / 2) - (1 - z + z ^ 2 / 2)| ≤ 1 / 2 * |z| ^ 3 := by
    rw [hrat, abs_div, abs_neg, abs_div, abs_pow, abs_of_pos hden0,
      abs_of_pos (by norm_num : (0 : ℝ) < 4), div_le_iff₀ hden0]
    have h3 : 0 ≤ |z| ^ 3 := by positivity
    nlinarith
  have htri : |(1 - z / 2) / (1 + z / 2) - Real.exp (-z)|
      ≤ |(1 - z / 2) / (1 + z / 2) - (1 - z + z ^ 2 / 2)|
        + |Real.exp (-z) - (1 - z + z ^ 2 / 2)| := by
    have := abs_sub_le ((1 - z / 2) / (1 + z / 2)) (1 - z + z ^ 2 / 2) (Real.exp (-z))
    rwa [abs_sub_comm (1 - z + z ^ 2 / 2) (Real.exp (-z))] at this
  have hexp' : |Real.exp (-z) - (1 - z + z ^ 2 / 2)| ≤ 2 / 9 * |z| ^ 3 := by
    have heq : Real.exp (-z) - (1 - z + z ^ 2 / 2) = Real.exp (-z) - (1 + -z + z ^ 2 / 2) := by
      ring
    rw [heq]
    linarith [hexp]
  linarith

theorem multiplier_abs_le_exp (z : ℝ) (hz : |z| ≤ 1) :
    |(1 - z / 2) / (1 + z / 2)| ≤ Real.exp (2 * |z|) := by
  obtain ⟨hlo, hhi⟩ := abs_le.mp hz
  have hs0 : 0 ≤ |z| := abs_nonneg z
  have hzle : z ≤ |z| := le_abs_self z
  have hzge : -|z| ≤ z := neg_abs_le z
  have hden0 : (0 : ℝ) < 1 + z / 2 := by linarith
  have hnum : |1 - z / 2| ≤ 1 + |z| / 2 := by
    rw [abs_le]
    constructor <;> linarith
  have hle : |(1 - z / 2) / (1 + z / 2)| ≤ 1 + 2 * |z| := by
    rw [abs_div, abs_of_pos hden0, div_le_iff₀ hden0]
    have h1 : 1 + |z| / 2 ≤ (1 + 2 * |z|) * (1 - |z| / 2) := by nlinarith
    have h2 : (1 + 2 * |z|) * (1 - |z| / 2) ≤ (1 + 2 * |z|) * (1 + z / 2) := by
      apply mul_le_mul_of_nonneg_left <;> linarith
    linarith
  have hexp := Real.add_one_le_exp (2 * |z|)
  linarith

theorem pow_sub_pow_abs_le_of_le (r e M : ℝ) (hM : 1 ≤ M) (hr : |r| ≤ M) (he : |e| ≤ M)
    (n : ℕ) : |r ^ n - e ^ n| ≤ n * M ^ n * |r - e| := by
  induction n with
  | zero => simp
  | succ n ih =>
    have hM0 : 0 ≤ M := by linarith
    have hsplit : r ^ (n + 1) - e ^ (n + 1) = r * (r ^ n - e ^ n) + (r - e) * e ^ n := by ring
    have hen : |e ^ n| ≤ M ^ n := by
      rw [abs_pow]
      exact pow_le_pow_left₀ (abs_nonneg e) he n
    have hMn : 0 ≤ M ^ n := pow_nonneg hM0 n
    have hd : 0 ≤ |r - e| := abs_nonneg _
    have h1 : |r * (r ^ n - e ^ n)| ≤ M * (n * M ^ n * |r - e|) := by
      rw [abs_mul]
      exact mul_le_mul hr ih (abs_nonneg _) hM0
    have h2 : |(r - e) * e ^ n| ≤ |r - e| * M ^ n := by
      rw [abs_mul]
      exact mul_le_mul_of_nonneg_left hen hd
    have h3 : |r - e| * M ^ n ≤ |r - e| * (M * M ^ n) := by
      apply mul_le_mul_of_nonneg_left _ hd
      nlinarith
    calc |r ^ (n + 1) - e ^ (n + 1)| = |r * (r ^ n - e ^ n) + (r - e) * e ^ n| := by rw [hsplit]
      _ ≤ |r * (r ^ n - e ^ n)| + |(r - e) * e ^ n| := abs_add _ _
      _ ≤ M * (n * M ^ n * |r - e|) + |r - e| * (M * M ^ n) := by linarith
      _ = (n + 1 : ℕ) * M ^ (n + 1) * |r - e| := by push_cast; ring

theorem multiplier_pow_sub_exp_le_general (lam T : ℝ) (n : ℕ) (hn : 0 < n)
    (hz : |T / n * lam| ≤ 1) :
    |((1 - T / n / 2 * lam) / (1 + T / n / 2 * lam)) ^ n - Real.exp (-(lam * T))|
      ≤ 13 / 18 * Real.exp (2 * |lam * T|) * |lam| ^ 3 * |T| * (T / n) ^ 2 := by
  have hn0 : (0 : ℝ) < n := by exact_mod_cast hn
  have hR : (1 - T / n / 2 * lam) / (1 + T / n / 2 * lam)
      = (1 - T / n * lam / 2) / (1 + T / n * lam / 2) := by
    congr 1 <;> ring
  have hzabs : |T / n * lam| = |T| / n * |lam| := by
    rw [abs_mul, abs_div, abs_of_pos hn0]
  have hM1 : 1 ≤ Real.exp (2 * |T / n * lam|) :=
    Real.one_le_exp (by positivity)
  have hRabs := multiplier_abs_le_exp (T / n * lam) hz
  have hEabs : |Real.exp (-(T / n * lam))| ≤ Real.exp (2 * |T / n * lam|) := by
    rw [abs_of_pos (Real.exp_pos _)]
    apply Real.exp_le_exp.mpr
    have h1 := neg_le_abs (T / n * lam)
    have h2 := abs_nonneg (T / n * lam)
    linarith
  have hE : Real.exp (-(lam * T)) = Real.exp (-(T / n * lam)) ^ n := by
    rw [← Real.exp_nat_mul]
    congr 1
    field_simp
    ring
  have hMn : Real.exp (2 * |T / n * lam|) ^ n = Real.exp (2 * |lam * T|) := by
    rw [← Real.exp_nat_mul]
    congr 1
    rw [hzabs, abs_mul]
    field_simp
    ring
  rw [hR, hE]
  calc |((1 - T / n * lam / 2) / (1 + T / n * lam / 2)) ^ n - Real.exp (-(T / n * lam)) ^ n|
      ≤ n * Real.exp (2 * |T / n * lam|) ^ n
          * |(1 - T / n * lam / 2) / (1 + T / n * lam / 2) - Real.exp (-(T / n * lam))| :=
        pow_sub_pow_abs_le_of_le _ _ _ hM1 hRabs hEabs n
    _ ≤ n * Real.exp (2 * |T / n * lam|) ^ n * (13 / 18 * |T / n * lam| ^ 3) :=
        mul_le_mul_of_nonneg_left (multiplier_sub_exp_le _ hz) (by positivity)
    _ = 13 / 18 * Real.exp (2 * |lam * T|) * |lam| ^ 3 * |T| * (T / n) ^ 2 := by
        have h3 : |T| ^ 3 = T ^ 2 * |T| := by
          rw [← sq_abs T]
          ring
        rw [hMn, hzabs]
        generalize Real.exp (2 * |lam * T|) = M
        field_simp
        linear_combination ((n : ℝ) ^ 3 * M * |lam| ^ 3 * 234) * h3

theorem norm_list_sum_sub_le {α E : Type} [SeminormedAddCommGroup E] (l : List α)
    (g h : α → E) (c : α → ℝ) :
    (∀ x ∈ l, ‖g x - h x‖ ≤ c x) → ‖(l.map g).sum - (l.map h).sum‖ ≤ (l.map c).sum := by
  induction l with
  | nil => intro _; simp
  | cons x xs ih =>
    intro hc
    have hx := hc x (List.mem_cons_self x xs)
    have hxs := ih (fun y hy => hc y (List.mem_cons_of_mem x hy))
    have hsplit : (g x + (xs.map g).sum) - (h x + (xs.map h).sum)
        = (g x - h x) + ((xs.map g).sum - (xs.map h).sum) := by abel
    simp only [List.map_cons, List.sum_cons]
    rw [hsplit]
    exact (norm_add_le _ _).trans (add_le_add hx hxs)

theorem iterate_add_of_add {E : Type} [Add E] (f : E → E)
    (hf : ∀ u w : E, f (u + w) = f u + f w) (n : ℕ) :
    ∀ u w : E, f^[n] (u + w) = f^[n] u + f^[n] w := by
  induction n with
  | zero => intro u w; rfl
  | succ n ih =>
    intro u w
    rw [Function.iterate_succ_apply, Function.iterate_succ_apply, Function.iterate_succ_apply,
      hf, ih]

theorem add_map_list_sum {α E : Type} [AddCommGroup E] (f : E → E)
    (hf : ∀ u w : E, f (u + w) = f u + f w) (g : α → E) (l : List α) :
    f (l.map g).sum = (l.map fun x => f (g x)).sum := by
  have h := map_list_sum (AddMonoidHom.mk' f hf) (l.map g)
  rw [List.map_map] at h
  exact h

theorem propagate_eigenvector {K Op Arr : Type} [Field K] [AddCommGroup Arr] [Module K Arr]
    (ops : OperatorInterface K Op Arr) (cn : CrankNicolson K Op) (v : Arr) (lam : K)
    (hact : HalvesAct ops cn.D)
    (heig : ∀ μ : K, ops.applyTo cn.D (μ • v) = (μ * lam) • v)
    (hcur : cn.HalvesCurrent ops.toOperatorAlgebra)
    (hsol : ∀ w : Arr, ops.solveFor cn.implicitPart (ops.applyTo cn.implicitPart w) = w)
    (hden : 1 + cn.dt / 2 * lam ≠ 0) (μ : K) :
    cn.propagate ops (μ • v)
      = ((1 - cn.dt / 2 * lam) / (1 + cn.dt / 2 * lam) * μ) • v := by
  have hexp : ops.applyTo cn.explicitPart (μ • v)
      = ops.applyTo cn.implicitPart
          (((1 - cn.dt / 2 * lam) / (1 + cn.dt / 2 * lam) * μ) • v) := by
    rw [hcur.1, hcur.2, hact.1, hact.2, heig, heig, smul_smul, smul_smul, ← sub_smul,
      ← add_smul]
    congr 1
    generalize cn.dt / 2 = c at hden ⊢
    field_simp
    ring
  unfold CrankNicolson.propagate
  rw [hexp, hsol]

theorem iterate_propagate_eigenvector {K Op Arr : Type} [Field K] [AddCommGroup Arr]
    [Module K Arr] (ops : OperatorInterface K Op Arr) (cn : CrankNicolson K Op) (v : Arr)
    (lam : K) (hact : HalvesAct ops cn.D)
    (heig : ∀ μ : K, ops.applyTo cn.D (μ • v) = (μ * lam) • v)
    (hcur : cn.HalvesCurrent ops.toOperatorAlgebra)
    (hsol : ∀ w : Arr, ops.solveFor cn.implicitPart (ops.applyTo cn.implicitPart w) = w)
    (hden : 1 + cn.dt / 2 * lam ≠ 0) (n : ℕ) :
    ∀ μ : K, (cn.propagate ops)^[n] (μ • v)
      = (((1 - cn.dt / 2 * lam) / (1 + cn.dt / 2 * lam)) ^ n * μ) • v := by
  induction n with
  | zero => intro μ; simp
  | succ n ih =>
    intro μ
    rw [Function.iterate_succ_apply, propagate_eigenvector ops cn v lam hact heig hcur hsol hden,
      ih, pow_succ, mul_assoc]

theorem propagate_add {K Op Arr : Type} [Field K] [AddCommGroup Arr] [Module K Arr]
    (ops : OperatorInterface K Op Arr) (cn : CrankNicolson K Op)
    (hact : HalvesAct ops cn.D)
    (hadd : ∀ u w : Arr, ops.applyTo cn.D (u + w) = ops.applyTo cn.D u + ops.applyTo cn.D w)
    (hcur : cn.HalvesCurrent ops.toOperatorAlgebra)
    (hinv : SolveForIsInverse ops cn.implicitPart) (u w : Arr) :
    cn.propagate ops (u + w) = cn.propagate ops u + cn.propagate ops w := by
  have he : ∀ x y : Arr, ops.applyTo cn.explicitPart (x + y)
      = ops.applyTo cn.explicitPart x + ops.applyTo cn.explicitPart y := by
    intro x y
    rw [hcur.1, hact.1, hact.1, hact.1, hadd, smul_add]
    abel
  have hi : ∀ x y : Arr, ops.applyTo cn.implicitPart (x + y)
      = ops.applyTo cn.implicitPart x + ops.applyTo cn.implicitPart y := by
    intro x y
    rw [hcur.2, hact.2, hact.2, hact.2, hadd, smul_add]
    abel
  unfold CrankNicolson.propagate
  rw [he]
  have hsum := hi (ops.solveFor cn.implicitPart (ops.applyTo cn.explicitPart u))
    (ops.solveFor cn.implicitPart (ops.applyTo cn.explicitPart w))
  rw [hinv.1, hinv.1] at hsum
  rw [← hsum, hinv.2]

theorem scalar_steps_after_setStep {K : Type} [Field K] (tmw : Bool) (coeffAt : K → K → K)
    (cn : CrankNicolson K K) (dt a : K) (ts : List K) :
    ((cn.setStep (scalarOperator K false coeffAt).toOperatorAlgebra dt).steps tmw
        (scalarOperator K false coeffAt) a ts).2
      = ((1 - dt / 2 * cn.D) / (1 + dt / 2 * cn.D)) ^ ts.length * a := by
  rw [steps_timeConstant tmw _ rfl]
  have hiter : ∀ (n : ℕ) (b : K),
      ((cn.setStep (scalarOperator K false coeffAt).toOperatorAlgebra dt).propagate
          (scalarOperator K false coeffAt))^[n] b
        = ((1 - dt / 2 * cn.D) / (1 + dt / 2 * cn.D)) ^ n * b := by
    intro n
    induction n with
    | zero => intro b; simp
    | succ n ih =>
      intro b
      rw [Function.iterate_succ_apply, ih, pow_succ]
      show _ * ((1 - dt / 2 * cn.D) * b / (1 + dt / 2 * cn.D)) = _
      ring
  exact hiter ts.length a

/-! ### Helper lemmas on the throwing model -/

theorem Throwing.timeUpdate_toThrowing {Time Op Arr : Type} [Div Time] [OfNat Time 2]
    (Err : Type) (tmw : Bool) (ops : OperatorInterface Time Op Arr)
    (cn : CrankNicolson Time Op) (a : Arr) (t : Time) :
    (Throwing.timeUpdate tmw (ops.toThrowing Err) cn a t).thrown = none
      ∧ (Throwing.timeUpdate tmw (ops.toThrowing Err) cn a t).evolver
          = cn.timeUpdate tmw ops t
      ∧ (Throwing.timeUpdate tmw (ops.toThrowing Err) cn a t).a = a := by
  cases tmw <;> cases h : ops.isTimeDependent <;>
    simp [Throwing.timeUpdate, CrankNicolson.timeUpdate, OperatorInterface.toThrowing,
      Throwing.CrankNicolsonTimeSetter0.setTime, Throwing.CrankNicolsonTimeSetter1.setTime,
      CrankNicolsonTimeSetter.setTime, h] <;>
    rfl

theorem Throwing.step_toThrowing {Time Op Arr : Type} [Div Time] [OfNat Time 2]
    (Err : Type) (tmw : Bool) (ops : OperatorInterface Time Op Arr)
    (cn : CrankNicolson Time Op) (a : Arr) (t : Time) :
    (Throwing.step tmw (ops.toThrowing Err) cn a t).thrown = none
      ∧ (Throwing.step tmw (ops.toThrowing Err) cn a t).evolver = (cn.step tmw ops a t).1
      ∧ (Throwing.step tmw (ops.toThrowing Err) cn a t).a = (cn.step tmw ops a t).2 := by
  obtain ⟨h1, h2, h3⟩ := Throwing.timeUpdate_toThrowing Err tmw ops cn a t
  unfold Throwing.step
  generalize Throwing.timeUpdate tmw (ops.toThrowing Err) cn a t = out at h1 h2 h3 ⊢
  rw [h1]
  simp only [Throwing.solveAndAssign, OperatorInterface.toThrowing, h2, h3,
    CrankNicolson.step, and_self]

theorem Throwing.throwingTimeUpdate_tmw_irrelevant {Err Time Op Arr : Type} [Div Time]
    [OfNat Time 2] (tmw : Bool) (ops : ThrowingOperatorInterface Err Time Op Arr)
    (cn : CrankNicolson Time Op) (a : Arr) (t : Time) :
    Throwing.timeUpdate tmw ops cn a t = Throwing.timeUpdate false ops cn a t := by
  cases tmw
  · rfl
  · cases h : ops.isTimeDependent <;>
      simp [Throwing.timeUpdate, Throwing.CrankNicolsonTimeSetter0.setTime,
        Throwing.CrankNicolsonTimeSetter1.setTime, h]

theorem Throwing.throwingStep_tmw_irrelevant {Err Time Op Arr : Type} [Div Time]
    [OfNat Time 2] (tmw : Bool) (ops : ThrowingOperatorInterface Err Time Op Arr)
    (cn : CrankNicolson Time Op) (a : Arr) (t : Time) :
    Throwing.step tmw ops cn a t = Throwing.step false ops cn a t := by
  unfold Throwing.step
  rw [Throwing.throwingTimeUpdate_tmw_irrelevant]

/-! ### The claims -/

/-- C1: for every evolver state and every `dt`, `setStep(dt)` leaves the
evolver with `dt` stored, `explicitPart = Identity - (dt/2)*D`,
`implicitPart = Identity + (dt/2)*D` for the current `D`, and `D` unchanged. -/
theorem setStep_fields {Time Op : Type} [Div Time] [OfNat Time 2]
    (ops : OperatorAlgebra Time Op) (cn : CrankNicolson Time Op) (dt : Time) :
    (cn.setStep ops dt).dt = dt
      ∧ (cn.setStep ops dt).explicitPart = ops.identityMinus (ops.scale (dt / 2) cn.D)
      ∧ (cn.setStep ops dt).implicitPart = ops.identityPlus (ops.scale (dt / 2) cn.D)
      ∧ (cn.setStep ops dt).D = cn.D :=
  ⟨rfl, rfl, rfl, rfl⟩

/-- C2: for every evolver state, array `a` and time `t`, `step(a, t)` replaces
`a` by `implicitPart.solveFor(explicitPart.applyTo(a))`, where the halves are
the ones held when the step completes, so that the new array `x` satisfies
`implicitPart x = explicitPart a` when `solveFor` solves. In every state that
the constructor, `setStep` and `step` produce, when the `solveFor` of the
implicit half inverts its `applyTo`, `x` satisfies
`(Identity + (dt/2)*D) x = (Identity - (dt/2)*D) a` for the `D` and `dt` held:
after a `setStep` and for a time-dependent operator the halves are these two
operators; a time-constant evolver stepped before any `setStep` holds `dt = 0`
and two default-constructed halves, `x` is `a`, and the equation reads
`Identity a = Identity a` (the operators `Identity + 0*D` and `Identity - 0*D`
returning their input). The equation also holds in every state whose halves
are current. -/
theorem step_assigns_solution {Time Op Arr : Type} [Zero Time] [Div Time] [OfNat Time 2]
    (tmw : Bool) (ops : OperatorInterface Time Op Arr) (cn : CrankNicolson Time Op)
    (a : Arr) (t : Time) :
    (cn.step tmw ops a t).2
        = ops.solveFor (cn.step tmw ops a t).1.implicitPart
            (ops.applyTo (cn.step tmw ops a t).1.explicitPart a)
      ∧ (SolveForInverts ops (cn.step tmw ops a t).1.implicitPart →
          ops.applyTo (cn.step tmw ops a t).1.implicitPart (cn.step tmw ops a t).2
            = ops.applyTo (cn.step tmw ops a t).1.explicitPart a)
      ∧ (∀ (D : Op) (calls : List (Call Time Arr)),
          cn = (CrankNicolson.init ops.toOperatorAlgebra D).run tmw ops calls →
          SolveForIsInverse ops (cn.step tmw ops a t).1.implicitPart →
          (ops.isTimeDependent = false → cn = CrankNicolson.init ops.toOperatorAlgebra D →
            ∀ v : Arr, ops.applyTo (ops.identityPlus (ops.scale (0 / 2) D)) v = v
              ∧ ops.applyTo (ops.identityMinus (ops.scale (0 / 2) D)) v = v) →
          (cn.step tmw ops a t).1.SolvesScheme ops a (cn.step tmw ops a t).2)
      ∧ (SolveForInverts ops (cn.step tmw ops a t).1.implicitPart →
          ops.isTimeDependent = true ∨ cn.HalvesCurrent ops.toOperatorAlgebra →
          (cn.step tmw ops a t).1.SolvesScheme ops a (cn.step tmw ops a t).2) := by
  refine ⟨rfl, fun hinv => hinv _, ?_,
    fun hinv hcur => step_solvesScheme tmw ops cn a t hinv hcur⟩
  intro D calls hcn hinv hfresh
  have hcases := run_init_cases tmw ops D calls (CrankNicolson.init ops.toOperatorAlgebra D)
    (Or.inr rfl)
  rw [← hcn] at hcases
  cases htd : ops.isTimeDependent
  · rcases hcases with hcur | hinit
    · exact step_solvesScheme tmw ops cn a t hinv.1 (Or.inr hcur)
    · have hlaws := hfresh htd hinit
      rw [step_timeConstant tmw ops htd] at hinv ⊢
      have hx : cn.propagate ops a = a := by
        unfold CrankNicolson.propagate
        have hhalves : cn.explicitPart = cn.implicitPart := by rw [hinit]; rfl
        rw [hhalves]
        exact hinv.2 a
      rw [hx, hinit]
      unfold CrankNicolson.SolvesScheme
      exact ((hlaws a).1).trans ((hlaws a).2).symm
  · exact step_solvesScheme tmw ops cn a t hinv.1 (Or.inl htd)

/-- Witness of C2: the evolver of the 1×1 operator multiply by 2, constructed
and given `setStep(1)`, steps `[1]` to `[0]`, and `(1 + 1) * 0 = (1 - 1) * 1`;
the same evolver with multiply by 1 as default-constructed operator, stepped
right after construction, steps `[5]` to `[5]`, and
`(1 + 0*2) * 5 = (1 - 0*2) * 5`. -/
theorem step_assigns_solution_witness :
    (CrankNicolson.step false (scalarOperator ℚ false fun _ c => c)
        ((CrankNicolson.init (scalarOperator ℚ false fun _ c => c).toOperatorAlgebra 2).run
          false (scalarOperator ℚ false fun _ c => c) [Call.setStep 1]) 1 0).1.SolvesScheme
        (scalarOperator ℚ false fun _ c => c) 1
        (CrankNicolson.step false (scalarOperator ℚ false fun _ c => c)
          ((CrankNicolson.init (scalarOperator ℚ false fun _ c => c).toOperatorAlgebra 2).run
            false (scalarOperator ℚ false fun _ c => c) [Call.setStep 1]) 1 0).2
      ∧ (CrankNicolson.step false (scalarOperator ℚ false fun _ c => c)
          ((CrankNicolson.init (scalarOperator ℚ false fun _ c => c).toOperatorAlgebra 2).run
            false (scalarOperator ℚ false fun _ c => c) [Call.setStep 1]) 1 0)
        = (⟨2, 0, 2, 1⟩, 0)
      ∧ (CrankNicolson.step false
          { scalarOperator ℚ false fun _ c => c with defaultOp := 1 }
          ((CrankNicolson.init
            { scalarOperator ℚ false fun _ c => c with defaultOp := 1 }.toOperatorAlgebra
            2).run false { scalarOperator ℚ false fun _ c => c with defaultOp := 1 } [])
          5 0).1.SolvesScheme { scalarOperator ℚ false fun _ c => c with defaultOp := 1 } 5
          (CrankNicolson.step false
            { scalarOperator ℚ false fun _ c => c with defaultOp := 1 }
            ((CrankNicolson.init
              { scalarOperator ℚ false fun _ c => c with defaultOp := 1 }.toOperatorAlgebra
              2).run false { scalarOperator ℚ false fun _ c => c with defaultOp := 1 } [])
            5 0).2 := by
  have hstep : CrankNicolson.step false (scalarOperator ℚ false fun _ c => c)
      ((CrankNicolson.init (scalarOperator ℚ false fun _ c => c).toOperatorAlgebra 2).run
        false (scalarOperator ℚ false fun _ c => c) [Call.setStep 1]) 1 0
      = (⟨2, 0, 2, 1⟩, 0) := by
    simp only [CrankNicolson.step, CrankNicolson.timeUpdate, CrankNicolson.run,
      CrankNicolson.call, CrankNicolson.setStep, CrankNicolson.init, List.foldl,
      explicitHalf, implicitHalf, scalarOperator]
    norm_num
  refine ⟨(step_assigns_solution false (scalarOperator ℚ false fun _ c => c) _ 1 0).2.2.1
    2 [Call.setStep 1] rfl ?_ ?_, hstep,
    (step_assigns_solution false
      { scalarOperator ℚ false fun _ c => c with defaultOp := 1 } _ 5 0).2.2.1
      2 [] rfl ?_ ?_⟩
  · rw [hstep]
    constructor
    · intro b
      simp only [scalarOperator]
      field_simp
    · intro v
      simp only [scalarOperator]
      field_simp
  · intro _ _ v
    simp [scalarOperator]
  · constructor
    · intro b
      simp [CrankNicolson.step, CrankNicolson.timeUpdate, CrankNicolson.run,
        CrankNicolson.init, scalarOperator]
    · intro v
      simp [CrankNicolson.step, CrankNicolson.timeUpdate, CrankNicolson.run,
        CrankNicolson.init, scalarOperator]
  · intro _ _ v
    simp [scalarOperator]

/-- C3: for a time-constant operator, every `dt` and every sequence of `step`
calls (any arrays, any times) made after `setStep(dt)`, the evolver, that is
the fields `D`, `explicitPart`, `implicitPart` and `dt`, is exactly the one
left by `setStep(dt)`; a single `step` returns the evolver it was given. -/
theorem timeConstant_steps_keep_fields {Time Op Arr : Type} [Div Time] [OfNat Time 2]
    (tmw : Bool) (ops : OperatorInterface Time Op Arr) (h : ops.isTimeDependent = false)
    (cn : CrankNicolson Time Op) (dt : Time) :
    (∀ calls : List (Arr × Time),
        (cn.setStep ops.toOperatorAlgebra dt).run tmw ops
            (calls.map fun p => Call.step p.1 p.2)
          = cn.setStep ops.toOperatorAlgebra dt)
      ∧ (∀ (a : Arr) (ts : List Time),
          ((cn.setStep ops.toOperatorAlgebra dt).steps tmw ops a ts).1
            = cn.setStep ops.toOperatorAlgebra dt)
      ∧ (∀ (a : Arr) (t : Time), (cn.step tmw ops a t).1 = cn) :=
  ⟨fun calls => run_steps_timeConstant tmw ops h calls _,
    fun a ts => steps_fst_timeConstant tmw ops h ts _ a,
    fun _ t => timeUpdate_timeConstant tmw ops h cn t⟩

/-- Witness of C3: the time-constant 1×1 operator multiply by 2, `setStep(1)`,
then steps at the times 5 and 7. -/
theorem timeConstant_steps_keep_fields_witness :
    (CrankNicolson.setStep (scalarOperator ℚ false fun _ c => c).toOperatorAlgebra
        ⟨2, 0, 0, 0⟩ 1).run true (scalarOperator ℚ false fun _ c => c)
        [Call.step 1 5, Call.step 3 7]
      = ⟨2, 0, 2, 1⟩ := by
  have h := (timeConstant_steps_keep_fields true (scalarOperator ℚ false fun _ c => c) rfl
    ⟨2, 0, 0, 0⟩ 1).1 [(1, 5), (3, 7)]
  rw [show ([Call.step 1 5, Call.step 3 7] : List (Call ℚ ℚ))
    = [((1 : ℚ), (5 : ℚ)), (3, 7)].map fun p => Call.step p.1 p.2 from rfl, h]
  simp only [CrankNicolson.setStep, explicitHalf, implicitHalf, scalarOperator]
  norm_num

/-- C4, as amended: for a time-dependent operator, every evolver state, array
`a` and time `t`, `step(a, t)` gives the same evolver and the same new array
as the manual sequence `setTime(t)`, rebuild both halves from the updated `D`
and the stored `dt`, solve; the `dt` stored is unchanged; the outcome does not
depend on the halves held on entry (built for the time of an earlier step). An
earlier step at `t0` acts on the step at `t` through the member `D` alone: the
halves are then built from `D` after `setTime(t0)` and `setTime(t)`, and they
are the halves of a step at `t` alone when `setTime(t)` overrides an earlier
`setTime(t0)`. -/
theorem timeDependent_step_refines_manual {Time Op Arr : Type} [Div Time] [OfNat Time 2]
    (tmw : Bool) (ops : OperatorInterface Time Op Arr) (h : ops.isTimeDependent = true)
    (cn : CrankNicolson Time Op) (a : Arr) (t : Time) :
    cn.step tmw ops a t = manualStep ops cn a t
      ∧ (cn.step tmw ops a t).1.dt = cn.dt
      ∧ (∀ cn2 : CrankNicolson Time Op, cn2.D = cn.D → cn2.dt = cn.dt →
          cn2.step tmw ops a t = cn.step tmw ops a t)
      ∧ (∀ (a0 : Arr) (t0 : Time),
          ops.setTime t (ops.setTime t0 cn.D) = ops.setTime t cn.D →
          (cn.step tmw ops a0 t0).1.step tmw ops a t = cn.step tmw ops a t)
      ∧ (∀ (a0 : Arr) (t0 : Time),
          ((cn.step tmw ops a0 t0).1.step tmw ops a t).1
            = ⟨ops.setTime t (ops.setTime t0 cn.D),
                ops.identityMinus (ops.scale (cn.dt / 2) (ops.setTime t (ops.setTime t0 cn.D))),
                ops.identityPlus (ops.scale (cn.dt / 2) (ops.setTime t (ops.setTime t0 cn.D))),
                cn.dt⟩) := by
  have hstep : ∀ (c : CrankNicolson Time Op) (b : Arr) (s : Time),
      c.step tmw ops b s = manualStep ops c b s := by
    intro c b s
    simp only [CrankNicolson.step, timeUpdate_timeDependent tmw ops h, manualStep]
  refine ⟨hstep cn a t, ?_, ?_, ?_, ?_⟩
  · rw [hstep]
    rfl
  · intro cn2 hD hdt
    rw [hstep, hstep]
    simp only [manualStep, hD, hdt]
  · intro a0 t0 hset
    rw [hstep cn a0 t0, hstep, hstep]
    simp only [manualStep, hset]
  · intro a0 t0
    rw [hstep cn a0 t0, hstep]
    rfl

/-- C4, the claim as written fails in its last clause: take the time-dependent
1×1 operator whose `setTime(t)` adds `t` to the coefficient, construct the
evolver around `D` = multiply by 5 and call `setStep(2)`. After a step at
`t = 3` the halves are multiply by -7 and by 9, but after a step at `t0 = 8`
followed by the same step at `t = 3` they are multiply by -15 and by 17. -/
theorem timeDependent_step_earlier_time_counterexample :
    CrankNicolson.setStep (scalarOperator ℚ true fun t c => c + t).toOperatorAlgebra
        (CrankNicolson.init (scalarOperator ℚ true fun t c => c + t).toOperatorAlgebra 5) 2
        = ⟨5, -4, 6, 2⟩
      ∧ (CrankNicolson.step false (scalarOperator ℚ true fun t c => c + t)
          (CrankNicolson.setStep (scalarOperator ℚ true fun t c => c + t).toOperatorAlgebra
            (CrankNicolson.init (scalarOperator ℚ true fun t c => c + t).toOperatorAlgebra 5)
            2) 1 3).1
        = ⟨8, -7, 9, 2⟩
      ∧ (CrankNicolson.step false (scalarOperator ℚ true fun t c => c + t)
          (CrankNicolson.step false (scalarOperator ℚ true fun t c => c + t)
            (CrankNicolson.setStep (scalarOperator ℚ true fun t c => c + t).toOperatorAlgebra
              (CrankNicolson.init
                (scalarOperator ℚ true fun t c => c + t).toOperatorAlgebra 5) 2) 1 8).1
          1 3).1
        = ⟨16, -15, 17, 2⟩
      ∧ (⟨16, -15, 17, 2⟩ : CrankNicolson ℚ ℚ).explicitPart
        ≠ (⟨8, -7, 9, 2⟩ : CrankNicolson ℚ ℚ).explicitPart
      ∧ (⟨16, -15, 17, 2⟩ : CrankNicolson ℚ ℚ).implicitPart
        ≠ (⟨8, -7, 9, 2⟩ : CrankNicolson ℚ ℚ).implicitPart := by
  refine ⟨?_, ?_, ?_, by norm_num, by norm_num⟩
  · simp only [CrankNicolson.setStep, CrankNicolson.init, explicitHalf, implicitHalf,
      scalarOperator]
    norm_num
  · simp only [CrankNicolson.step, CrankNicolson.timeUpdate, CrankNicolson.setStep,
      CrankNicolson.init, explicitHalf, implicitHalf, scalarOperator]
    norm_num
  · simp only [CrankNicolson.step, CrankNicolson.timeUpdate, CrankNicolson.setStep,
      CrankNicolson.init, explicitHalf, implicitHalf, scalarOperator]
    norm_num

/-- Witness of C4: the time-dependent 1×1 operator whose coefficient at time
`t` is `t`, evolver with `dt = 2` and stale halves, one step of `[1]` at
`t = 3`: the halves become multiply by `1 - 3` and by `1 + 3`; other stale
halves, or a step at `t0 = 8` made before, give the same. -/
theorem timeDependent_step_refines_manual_witness :
    CrankNicolson.step false (scalarOperator ℚ true fun t _ => t) ⟨5, 7, 9, 2⟩ 1 3
        = (⟨3, -2, 4, 2⟩, -1 / 2)
      ∧ CrankNicolson.step false (scalarOperator ℚ true fun t _ => t) ⟨5, 0, 0, 2⟩ 1 3
        = CrankNicolson.step false (scalarOperator ℚ true fun t _ => t) ⟨5, 7, 9, 2⟩ 1 3
      ∧ CrankNicolson.step false (scalarOperator ℚ true fun t _ => t)
          (CrankNicolson.step false (scalarOperator ℚ true fun t _ => t)
            ⟨5, 7, 9, 2⟩ 6 8).1 1 3
        = CrankNicolson.step false (scalarOperator ℚ true fun t _ => t) ⟨5, 7, 9, 2⟩ 1 3 := by
  have h := timeDependent_step_refines_manual false (scalarOperator ℚ true fun t _ => t) rfl
    ⟨5, 7, 9, 2⟩ 1 3
  refine ⟨?_, h.2.2.1 ⟨5, 0, 0, 2⟩ rfl rfl, h.2.2.2.1 6 8 rfl⟩
  rw [h.1]
  simp only [manualStep, scalarOperator]
  norm_num

/-- C5: start from the constructor and make any sequence of `setStep` and
`step` calls in which a `setStep` comes before the first `step`, that is, a
sequence `setStep(dt0), ...` of any calls; when a `step` of the sequence
completes, `explicitPart = Identity - (dt/2)*D` and
`implicitPart = Identity + (dt/2)*D` for the `D` and `dt` the evolver holds. -/
theorem halves_current_after_each_step {Time Op Arr : Type}
    [Zero Time] [Div Time] [OfNat Time 2]
    (tmw : Bool) (ops : OperatorInterface Time Op Arr) (D : Op) (dt0 : Time)
    (calls : List (Call Time Arr)) (a : Arr) (t : Time) :
    (((CrankNicolson.init ops.toOperatorAlgebra D).run tmw ops
        (Call.setStep dt0 :: calls)).step tmw ops a t).1.explicitPart
        = ops.identityMinus (ops.scale
            ((((CrankNicolson.init ops.toOperatorAlgebra D).run tmw ops
                (Call.setStep dt0 :: calls)).step tmw ops a t).1.dt / 2)
            (((CrankNicolson.init ops.toOperatorAlgebra D).run tmw ops
                (Call.setStep dt0 :: calls)).step tmw ops a t).1.D)
      ∧ (((CrankNicolson.init ops.toOperatorAlgebra D).run tmw ops
          (Call.setStep dt0 :: calls)).step tmw ops a t).1.implicitPart
        = ops.identityPlus (ops.scale
            ((((CrankNicolson.init ops.toOperatorAlgebra D).run tmw ops
                (Call.setStep dt0 :: calls)).step tmw ops a t).1.dt / 2)
            (((CrankNicolson.init ops.toOperatorAlgebra D).run tmw ops
                (Call.setStep dt0 :: calls)).step tmw ops a t).1.D) := by
  have h0 : ((CrankNicolson.init ops.toOperatorAlgebra D).run tmw ops
      (Call.setStep dt0 :: calls)).HalvesCurrent ops.toOperatorAlgebra :=
    run_halvesCurrent tmw ops calls _ (setStep_halvesCurrent _ _ dt0)
  exact timeUpdate_halvesCurrent tmw ops _ t (Or.inr h0)

/-- C6, as amended: a `step` on a freshly constructed evolver, before any
`setStep`, is not checked. For every operator whose calls return, it returns
(nothing is thrown) with the `dt = 0` of the constructor still stored, and
assigns `implicitPart.solveFor(explicitPart.applyTo(a))` to the array, where,
for a time-dependent operator, the halves are rebuilt as
`Identity - (0/2)*D` and `Identity + (0/2)*D` from `D` at time `t`, and, for a
time-constant one, the evolver is unchanged and the halves are the
default-constructed operators. -/
theorem step_before_setStep_unchecked {Time Op Arr : Type}
    [Zero Time] [Div Time] [OfNat Time 2] (Err : Type)
    (tmw : Bool) (ops : OperatorInterface Time Op Arr) (D : Op) (a : Arr) (t : Time) :
    (Throwing.step tmw (ops.toThrowing Err)
        (CrankNicolson.init ops.toOperatorAlgebra D) a t).thrown = none
      ∧ (Throwing.step tmw (ops.toThrowing Err)
          (CrankNicolson.init ops.toOperatorAlgebra D) a t).evolver.dt = 0
      ∧ (Throwing.step tmw (ops.toThrowing Err)
          (CrankNicolson.init ops.toOperatorAlgebra D) a t).a
        = ops.solveFor
            (Throwing.step tmw (ops.toThrowing Err)
              (CrankNicolson.init ops.toOperatorAlgebra D) a t).evolver.implicitPart
            (ops.applyTo
              (Throwing.step tmw (ops.toThrowing Err)
                (CrankNicolson.init ops.toOperatorAlgebra D) a t).evolver.explicitPart a)
      ∧ (ops.isTimeDependent = true →
          (Throwing.step tmw (ops.toThrowing Err)
              (CrankNicolson.init ops.toOperatorAlgebra D) a t).evolver
            = ⟨ops.setTime t D, ops.identityMinus (ops.scale (0 / 2) (ops.setTime t D)),
                ops.identityPlus (ops.scale (0 / 2) (ops.setTime t D)), 0⟩)
      ∧ (ops.isTimeDependent = false →
          (Throwing.step tmw (ops.toThrowing Err)
              (CrankNicolson.init ops.toOperatorAlgebra D) a t).evolver
            = ⟨D, ops.defaultOp, ops.defaultOp, 0⟩) := by
  obtain ⟨h1, h2, h3⟩ := Throwing.step_toThrowing Err tmw ops
    (CrankNicolson.init ops.toOperatorAlgebra D) a t
  rw [h1, h2, h3, step_fst, step_snd]
  refine ⟨rfl, ?_, rfl, ?_, ?_⟩
  · cases h : ops.isTimeDependent
    · rw [timeUpdate_timeConstant tmw ops h]
      rfl
    · rw [timeUpdate_timeDependent tmw ops h]
      rfl
  · intro h
    rw [timeUpdate_timeDependent tmw ops h]
    rfl
  · intro h
    rw [timeUpdate_timeConstant tmw ops h]
    rfl

/-- C6, the claim as written fails: the freshly constructed evolver of the
time-dependent 1×1 operator multiply by 2, whose `solveFor` throws on a
singular system, is stepped at once with the array `[1]` at `t = 0`.
Nothing is thrown: `setTime`, `applyTo` and `solveFor` are called, the halves
are rebuilt with `dt = 0` (both are multiply by 1) and the array is assigned
`1 / (1 * 1)`. -/
theorem step_before_setStep_counterexample :
    Throwing.step false (Throwing.scalarOperator ℚ true fun _ c => c)
        (CrankNicolson.init
          (Throwing.scalarOperator ℚ true fun _ c => c).toOperatorAlgebra 2) 1 0
      = ⟨none, ⟨2, 1, 1, 0⟩, 1,
          [OperatorCall.setTime 0 2, OperatorCall.applyTo 1 1, OperatorCall.solveFor 1 1]⟩ := by
  simp [Throwing.step, Throwing.timeUpdate, Throwing.solveAndAssign,
    Throwing.scalarOperator, CrankNicolson.init, explicitHalf, implicitHalf]

/-- Witness of C6: the time-dependent 1×1 operator whose coefficient at time
`t` is `t`, stepped at `t = 3` right after construction around `D = 5`. -/
theorem step_before_setStep_unchecked_witness :
    (Throwing.step true ((scalarOperator ℚ true fun t _ => t).toThrowing Unit)
        (CrankNicolson.init (scalarOperator ℚ true fun t _ => t).toOperatorAlgebra 5)
        7 3).evolver
      = ⟨3, 1, 1, 0⟩ := by
  rw [(step_before_setStep_unchecked Unit true (scalarOperator ℚ true fun t _ => t)
    5 7 3).2.2.2.1 rfl]
  simp [scalarOperator]

/-- C7, as amended: the scheme of the code never amplifies for a positive
semidefinite operator (the sign for which `Identity + (dt/2)*D` is the
contracting side). For every operator `D` that is additive, obeys the operator
algebra and has `⟨D v, v⟩ ≥ 0`, every `dt > 0` and every `a`, one step after
`setStep(dt)` with a solvable implicit half gives `‖step(a)‖ ≤ ‖a‖`. In the
1×1 shape: for `D` = multiply by `λ` with `λ ≥ 0` and every `dt > 0`, the step
multiplies `a` by `(1 - dt*λ/2)/(1 + dt*λ/2)` and
`|(1 - dt*λ/2)/(1 + dt*λ/2) * a| ≤ |a|`. -/
theorem step_nonexpansive_of_positive_semidefinite :
    (∀ (Op E : Type) [NormedAddCommGroup E] [InnerProductSpace ℝ E] (tmw : Bool)
        (ops : OperatorInterface ℝ Op E) (cn : CrankNicolson ℝ Op) (dt : ℝ) (a : E) (t : ℝ),
        0 < dt →
        (∀ u v : E,
          ops.applyTo ((cn.setStep ops.toOperatorAlgebra dt).step tmw ops a t).1.D (u + v)
            = ops.applyTo ((cn.setStep ops.toOperatorAlgebra dt).step tmw ops a t).1.D u
              + ops.applyTo ((cn.setStep ops.toOperatorAlgebra dt).step tmw ops a t).1.D v) →
        HalvesAct ops ((cn.setStep ops.toOperatorAlgebra dt).step tmw ops a t).1.D →
        PositiveSemidefinite ops ((cn.setStep ops.toOperatorAlgebra dt).step tmw ops a t).1.D →
        SolveForInverts ops
          ((cn.setStep ops.toOperatorAlgebra dt).step tmw ops a t).1.implicitPart →
        ‖((cn.setStep ops.toOperatorAlgebra dt).step tmw ops a t).2‖ ≤ ‖a‖)
      ∧ (∀ (K : Type) [LinearOrderedField K] (tmw : Bool) (coeffAt : K → K → K)
          (cn : CrankNicolson K K) (dt a t : K),
          0 ≤ cn.D → 0 < dt →
          ((cn.setStep (scalarOperator K false coeffAt).toOperatorAlgebra dt).step tmw
              (scalarOperator K false coeffAt) a t).2
              = (1 - dt * cn.D / 2) / (1 + dt * cn.D / 2) * a
            ∧ |(1 - dt * cn.D / 2) / (1 + dt * cn.D / 2) * a| ≤ |a|) := by
  constructor
  · intro Op E _ _ tmw ops cn dt a t hdt hadd hact hpos hinv
    have hs := step_solvesScheme tmw ops (cn.setStep ops.toOperatorAlgebra dt) a t hinv
      (Or.inr (setStep_halvesCurrent _ cn dt))
    unfold CrankNicolson.SolvesScheme at hs
    rw [hact.1, hact.2] at hs
    have hdt2 : ((cn.setStep ops.toOperatorAlgebra dt).step tmw ops a t).1.dt = dt := by
      rw [step_fst, timeUpdate_dt]
      rfl
    rw [hdt2] at hs
    exact midpoint_norm_le _ hadd hpos (dt / 2) (by positivity) _ a hs
  · intro K _ tmw coeffAt cn dt a t hl hdt
    have hmul : (1 - dt / 2 * cn.D) * a / (1 + dt / 2 * cn.D)
        = (1 - dt * cn.D / 2) / (1 + dt * cn.D / 2) * a := by
      rw [div_mul_eq_mul_div]
      ring
    rw [scalar_step_after_setStep, ← hmul]
    exact ⟨rfl, scalar_multiplier_abs_le cn.D dt a hl hdt⟩

/-- C7, the claim as written fails: for the 1×1 operator `D` = multiply by
`-1` (negative semidefinite) and `dt = 1`, the implicit half `1 - 1/2` is
solvable and one step after `setStep(1)` takes `[1]` to `[3]`. -/
theorem step_amplifies_negative_counterexample :
    (-1 : ℚ) ≤ 0 ∧ (0 : ℚ) < 1
      ∧ SolveForInverts (scalarOperator ℚ false fun _ c => c)
          ((CrankNicolson.setStep (scalarOperator ℚ false fun _ c => c).toOperatorAlgebra
            (CrankNicolson.init (scalarOperator ℚ false fun _ c => c).toOperatorAlgebra (-1))
            1).step false (scalarOperator ℚ false fun _ c => c) 1 0).1.implicitPart
      ∧ ((CrankNicolson.setStep (scalarOperator ℚ false fun _ c => c).toOperatorAlgebra
            (CrankNicolson.init (scalarOperator ℚ false fun _ c => c).toOperatorAlgebra (-1))
            1).step false (scalarOperator ℚ false fun _ c => c) 1 0).2 = 3
      ∧ (1 - 1 * (-1 : ℚ) / 2) / (1 + 1 * (-1 : ℚ) / 2) * 1 = 3
      ∧ ¬ |((CrankNicolson.setStep (scalarOperator ℚ false fun _ c => c).toOperatorAlgebra
            (CrankNicolson.init (scalarOperator ℚ false fun _ c => c).toOperatorAlgebra (-1))
            1).step false (scalarOperator ℚ false fun _ c => c) 1 0).2| ≤ |(1 : ℚ)| := by
  rw [scalar_step_after_setStep]
  refine ⟨by norm_num, by norm_num, fun b => ?_, ?_, by norm_num, ?_⟩
  · simp only [scalarOperator, CrankNicolson.init]
    norm_num
    field_simp
  · simp only [CrankNicolson.init]
    norm_num
  · simp only [CrankNicolson.init]
    norm_num [abs_of_pos]

/-- Witness of C7: the 1×1 operator multiply by 2 over the reals with
`dt = 1` (the step takes `[1]` to `[0]`), and over the rationals with
`dt = 4` and `a = 3`. -/
theorem step_nonexpansive_of_positive_semidefinite_witness :
    ‖((CrankNicolson.setStep (scalarOperator ℝ false fun _ c => c).toOperatorAlgebra
          ⟨2, 0, 0, 0⟩ 1).step false (scalarOperator ℝ false fun _ c => c) 1 0).2‖
        ≤ ‖(1 : ℝ)‖
      ∧ (0 : ℚ) ≤ 2 ∧ (0 : ℚ) < 4
      ∧ |(1 - 4 * (2 : ℚ) / 2) / (1 + 4 * (2 : ℚ) / 2) * 3| ≤ |(3 : ℚ)| := by
  have hstep : ((CrankNicolson.setStep (scalarOperator ℝ false fun _ c => c).toOperatorAlgebra
      ⟨2, 0, 0, 0⟩ 1).step false (scalarOperator ℝ false fun _ c => c) 1 0).1
      = ⟨2, 1 - 1 / 2 * 2, 1 + 1 / 2 * 2, 1⟩ := by
    rw [scalar_step_after_setStep]
  refine ⟨step_nonexpansive_of_positive_semidefinite.1 ℝ ℝ false
      (scalarOperator ℝ false fun _ c => c) ⟨2, 0, 0, 0⟩ 1 1 0 one_pos ?_ ?_ ?_ ?_,
    by norm_num, by norm_num,
    (step_nonexpansive_of_positive_semidefinite.2 ℚ true (fun _ c => c) ⟨2, 0, 0, 0⟩ 4 3 0
      (by norm_num) (by norm_num)).2⟩
  · intro u v
    rw [hstep]
    simp only [scalarOperator]
    ring
  · rw [hstep]
    constructor <;> intro c v <;> simp only [scalarOperator, smul_eq_mul] <;> ring
  · rw [hstep]
    intro v
    simp only [scalarOperator, RCLike.inner_apply, conj_trivial]
    nlinarith [mul_self_nonneg v]
  · rw [hstep]
    intro b
    simp only [scalarOperator]
    norm_num
    field_simp

/-- C8: for every evolver state whose halves, as used by the step at time
`t`, have additive `applyTo` and `solveFor`, and all arrays `a1` and `a2`, the
result of `step` on `a1 + a2` is the sum of the results of `step` on `a1` and
on `a2`, and the three steps leave the same evolver. -/
theorem step_additive {Time Op Arr : Type} [Div Time] [OfNat Time 2] [Add Arr]
    (tmw : Bool) (ops : OperatorInterface Time Op Arr) (cn : CrankNicolson Time Op)
    (a1 a2 : Arr) (t : Time)
    (happly : ∀ u v : Arr,
      ops.applyTo (cn.step tmw ops (a1 + a2) t).1.explicitPart (u + v)
        = ops.applyTo (cn.step tmw ops (a1 + a2) t).1.explicitPart u
          + ops.applyTo (cn.step tmw ops (a1 + a2) t).1.explicitPart v)
    (hsolve : ∀ u v : Arr,
      ops.solveFor (cn.step tmw ops (a1 + a2) t).1.implicitPart (u + v)
        = ops.solveFor (cn.step tmw ops (a1 + a2) t).1.implicitPart u
          + ops.solveFor (cn.step tmw ops (a1 + a2) t).1.implicitPart v) :
    (cn.step tmw ops (a1 + a2) t).2 = (cn.step tmw ops a1 t).2 + (cn.step tmw ops a2 t).2
      ∧ (cn.step tmw ops (a1 + a2) t).1 = (cn.step tmw ops a1 t).1
      ∧ (cn.step tmw ops (a1 + a2) t).1 = (cn.step tmw ops a2 t).1 := by
  rw [step_fst] at happly hsolve
  refine ⟨?_, rfl, rfl⟩
  rw [step_snd, step_snd, step_snd, happly, hsolve]

/-- Witness of C8: the 1×1 operator multiply by 1 after `setStep(1)` (halves
multiply by 1/2 and by 3/2) takes `[3]` to `[1]`, `[6]` to `[2]` and `[9]` to
`[3]`. -/
theorem step_additive_witness :
    ((CrankNicolson.setStep (scalarOperator ℚ false fun _ c => c).toOperatorAlgebra
        ⟨1, 0, 0, 0⟩ 1).step false (scalarOperator ℚ false fun _ c => c) (3 + 6) 0).2
      = ((CrankNicolson.setStep (scalarOperator ℚ false fun _ c => c).toOperatorAlgebra
          ⟨1, 0, 0, 0⟩ 1).step false (scalarOperator ℚ false fun _ c => c) 3 0).2
        + ((CrankNicolson.setStep (scalarOperator ℚ false fun _ c => c).toOperatorAlgebra
          ⟨1, 0, 0, 0⟩ 1).step false (scalarOperator ℚ false fun _ c => c) 6 0).2 :=
  (step_additive false (scalarOperator ℚ false fun _ c => c)
    (CrankNicolson.setStep (scalarOperator ℚ false fun _ c => c).toOperatorAlgebra
      ⟨1, 0, 0, 0⟩ 1) 3 6 0
    (fun u v => by simp only [scalarOperator]; ring)
    (fun u v => by simp only [scalarOperator]; ring)).1

/-- C9: for the zero operator `D = 0` (its `applyTo` returns the zero vector,
the operator algebra is the one of linear maps, the implicit halves are
solvable; if the operator is time-dependent, `setTime` takes zero operators to
zero operators), every `dt`, every array `a` and every number of `step` calls,
at any times, made after `setStep(dt)`, the array after the steps equals
`a`. -/
theorem zero_operator_steps_leave_state {K Op Arr : Type} [Field K] [AddCommGroup Arr]
    [Module K Arr] (tmw : Bool) (ops : OperatorInterface K Op Arr)
    (cn : CrankNicolson K Op) (dt : K) (a : Arr) (ts : List K)
    (hzero : IsZeroOperator ops cn.D)
    (hset : ops.isTimeDependent = true →
      ∀ (s : K) (D : Op), IsZeroOperator ops D → IsZeroOperator ops (ops.setTime s D)) :
    ((cn.setStep ops.toOperatorAlgebra dt).steps tmw ops a ts).2 = a :=
  steps_zero_operator tmw ops a hset ts (cn.setStep ops.toOperatorAlgebra dt) hzero
    (setStep_halvesCurrent _ cn dt)

/-- Witness of C9: the 1×1 operator multiply by 0, time-dependent with a
coefficient that `setTime` keeps, `setStep(7)`, then three steps of `[5]` at
the times 1, 2 and 3. -/
theorem zero_operator_steps_leave_state_witness :
    IsZeroOperator (scalarOperator ℚ true fun _ c => c) 0
      ∧ ((CrankNicolson.setStep (scalarOperator ℚ true fun _ c => c).toOperatorAlgebra
          ⟨0, 0, 0, 0⟩ 7).steps true (scalarOperator ℚ true fun _ c => c) 5 [1, 2, 3]).2
        = 5 := by
  have hzero : IsZeroOperator (scalarOperator ℚ true fun _ c => c) 0 :=
    ⟨fun v => by simp [scalarOperator],
      ⟨fun c v => by simp [scalarOperator], fun c v => by simp [scalarOperator]⟩,
      fun c b => by simp [scalarOperator]⟩
  exact ⟨hzero,
    zero_operator_steps_leave_state true (scalarOperator ℚ true fun _ c => c) ⟨0, 0, 0, 0⟩
      7 5 [1, 2, 3] hzero (fun _ _ _ h => h)⟩

/-- C10: for the 1×1 operator `D` = multiply by 2, after `setStep(1)` the
explicit half is multiply by 0 and the implicit half is multiply by 2, and a
single step turns `[1]` into `[0]`; for `D` = multiply by `λ` and `dt` with
`1 + dt*λ/2 ≠ 0`, one step after `setStep(dt)` multiplies the array by
`(1 - dt*λ/2)/(1 + dt*λ/2)`, and the new array `x` solves
`(1 + dt*λ/2) * x = (1 - dt*λ/2) * a`. -/
theorem scalar_step_multiplier :
    (∀ (tmw : Bool) (coeffAt : ℚ → ℚ → ℚ) (e i d t : ℚ),
        (CrankNicolson.setStep (scalarOperator ℚ false coeffAt).toOperatorAlgebra
            ⟨2, e, i, d⟩ 1).explicitPart = 0
          ∧ (CrankNicolson.setStep (scalarOperator ℚ false coeffAt).toOperatorAlgebra
            ⟨2, e, i, d⟩ 1).implicitPart = 2
          ∧ (∀ v : ℚ, (scalarOperator ℚ false coeffAt).applyTo 0 v = 0 * v)
          ∧ (∀ b : ℚ, 2 * (scalarOperator ℚ false coeffAt).solveFor 2 b = b)
          ∧ ((CrankNicolson.setStep (scalarOperator ℚ false coeffAt).toOperatorAlgebra
              ⟨2, e, i, d⟩ 1).step tmw (scalarOperator ℚ false coeffAt) 1 t).2 = 0)
      ∧ (∀ (K : Type) [Field K] (tmw : Bool) (coeffAt : K → K → K)
          (cn : CrankNicolson K K) (dt a t : K),
          1 + dt * cn.D / 2 ≠ 0 →
          ((cn.setStep (scalarOperator K false coeffAt).toOperatorAlgebra dt).step tmw
              (scalarOperator K false coeffAt) a t).2
              = (1 - dt * cn.D / 2) / (1 + dt * cn.D / 2) * a
            ∧ (1 + dt * cn.D / 2)
                * ((cn.setStep (scalarOperator K false coeffAt).toOperatorAlgebra dt).step tmw
                    (scalarOperator K false coeffAt) a t).2
              = (1 - dt * cn.D / 2) * a) := by
  constructor
  · intro tmw coeffAt e i d t
    rw [scalar_step_after_setStep]
    refine ⟨?_, ?_, fun v => rfl, fun b => ?_, ?_⟩
    · simp only [CrankNicolson.setStep, explicitHalf, scalarOperator]
      norm_num
    · simp only [CrankNicolson.setStep, implicitHalf, scalarOperator]
      norm_num
    · simp only [scalarOperator]
      field_simp
    · norm_num
  · intro K _ tmw coeffAt cn dt a t hne
    have hmul : (1 - dt / 2 * cn.D) * a / (1 + dt / 2 * cn.D)
        = (1 - dt * cn.D / 2) / (1 + dt * cn.D / 2) * a := by
      rw [div_mul_eq_mul_div]
      ring
    rw [scalar_step_after_setStep, ← hmul]
    refine ⟨rfl, ?_⟩
    have hne2 : 1 + dt / 2 * cn.D ≠ 0 := by
      intro h0
      apply hne
      rw [← h0]
      ring
    field_simp

/-- Witness of C10: `D` = multiply by 4 and `dt = 1`, where `1 + 1*4/2 = 3`:
one step takes `[6]` to `(1 - 2)/(1 + 2) * 6 = -2`. -/
theorem scalar_step_multiplier_witness :
    (1 + 1 * (4 : ℚ) / 2 ≠ 0)
      ∧ ((CrankNicolson.setStep (scalarOperator ℚ false fun _ c => c).toOperatorAlgebra
          ⟨4, 0, 0, 0⟩ 1).step false (scalarOperator ℚ false fun _ c => c) 6 0).2 = -2 := by
  have hne : 1 + 1 * (4 : ℚ) / 2 ≠ 0 := by norm_num
  refine ⟨hne, ?_⟩
  rw [(scalar_step_multiplier.2 ℚ false (fun _ c => c) ⟨4, 0, 0, 0⟩ 1 6 0 hne).1]
  norm_num

/-- C13: the two compile-time variants of `step` agree. For every operator,
time-dependent or not, every evolver state, array `a` and time `t`, the
variant that dispatches through `CrankNicolsonTimeSetter` and the variant that
tests `Operator::isTimeDependent` leave the same evolver and the same array;
for an operator that may throw they also make the same operator calls and
leave with the same exception. -/
theorem step_variants_agree {Err Time Op Arr : Type} [Div Time] [OfNat Time 2]
    (ops : OperatorInterface Time Op Arr) (tops : ThrowingOperatorInterface Err Time Op Arr)
    (cn : CrankNicolson Time Op) (a : Arr) (t : Time) :
    cn.step true ops a t = cn.step false ops a t
      ∧ CrankNicolsonTimeSetter.setTime ops cn t
          = (if ops.isTimeDependent then CrankNicolsonTimeSetter1.setTime ops cn t else cn)
      ∧ Throwing.step true tops cn a t = Throwing.step false tops cn a t := by
  refine ⟨?_, ?_, Throwing.throwingStep_tmw_irrelevant true tops cn a t⟩
  · unfold CrankNicolson.step
    rw [timeUpdate_tmw_irrelevant true]
  · cases h : ops.isTimeDependent <;>
      simp [CrankNicolsonTimeSetter.setTime, CrankNicolsonTimeSetter0.setTime, h]

/-- C14: for a time-constant operator, every evolver state and every array
`a`, the result of `step(a, t)` does not depend on `t`: `step(a, t1)` and
`step(a, t2)` leave the same array and the same evolver; `n` steps after
`setStep(dt)`, at any times, are the `n`-fold application of the one map
`a ↦ implicitPart.solveFor(explicitPart.applyTo(a))` of the halves that
`setStep(dt)` built. -/
theorem timeConstant_step_ignores_time {Time Op Arr : Type} [Div Time] [OfNat Time 2]
    (tmw : Bool) (ops : OperatorInterface Time Op Arr) (h : ops.isTimeDependent = false)
    (cn : CrankNicolson Time Op) :
    (∀ (a : Arr) (t1 t2 : Time), cn.step tmw ops a t1 = cn.step tmw ops a t2)
      ∧ (∀ (dt : Time) (a : Arr) (ts : List Time),
          (cn.setStep ops.toOperatorAlgebra dt).steps tmw ops a ts
            = (cn.setStep ops.toOperatorAlgebra dt,
                (fun b : Arr =>
                  ops.solveFor (cn.setStep ops.toOperatorAlgebra dt).implicitPart
                    (ops.applyTo (cn.setStep ops.toOperatorAlgebra dt).explicitPart b))^[ts.length]
                  a)) := by
  constructor
  · intro a t1 t2
    rw [step_timeConstant tmw ops h, step_timeConstant tmw ops h]
  · intro dt a ts
    exact steps_timeConstant tmw ops h _ ts a

/-- Witness of C14: the time-constant 1×1 operator multiply by 4 after
`setStep(1)` (halves multiply by -1 and by 3): two steps of `[9]`, at the times
5 and 7, give `[1]`, and a step of `[9]` at 5 and one at 7 both give `[-3]`. -/
theorem timeConstant_step_ignores_time_witness :
    (CrankNicolson.step false (scalarOperator ℚ false fun t _ => t) ⟨4, -1, 3, 1⟩ 9 5
        = CrankNicolson.step false (scalarOperator ℚ false fun t _ => t) ⟨4, -1, 3, 1⟩ 9 7)
      ∧ ((CrankNicolson.setStep (scalarOperator ℚ false fun t _ => t).toOperatorAlgebra
          ⟨4, 0, 0, 0⟩ 1).steps false (scalarOperator ℚ false fun t _ => t) 9 [5, 7]).2
        = 1 := by
  have h := timeConstant_step_ignores_time false (scalarOperator ℚ false fun t _ => t) rfl
    ⟨4, 0, 0, 0⟩
  refine ⟨(timeConstant_step_ignores_time false (scalarOperator ℚ false fun t _ => t) rfl
    ⟨4, -1, 3, 1⟩).1 9 5 7, ?_⟩
  rw [h.2 1 9 [5, 7]]
  simp only [CrankNicolson.setStep, explicitHalf, implicitHalf, scalarOperator,
    List.length_cons, List.length_nil, Function.iterate_succ_apply, Function.iterate_zero_apply]
  norm_num

/-- C11: with operator calls that may throw, for every evolver state (so also
after `setStep`), `step(a, t)` is left by an exception `e` if and only if one
of the operator calls it makes is left by `e`, and it returns if and only if
every call it makes returns: the evolver adds no failure of its own. Each of
`setTime`, `applyTo`, `solveFor` is called at most once, in this order, a step
that returns has called `applyTo` and `solveFor` once each (and `setTime` once
for a time-dependent operator), and `setTime` is not called for a
time-constant operator. -/
theorem step_fails_iff_operator_call_fails {Err Time Op Arr : Type} [Div Time]
    [OfNat Time 2] (tmw : Bool) (ops : ThrowingOperatorInterface Err Time Op Arr)
    (cn : CrankNicolson Time Op) (a : Arr) (t : Time) :
    (∀ e : Err, (Throwing.step tmw ops cn a t).thrown = some e
        ↔ ∃ c ∈ (Throwing.step tmw ops cn a t).calls, c.error ops = some e)
      ∧ ((Throwing.step tmw ops cn a t).thrown = none
        ↔ ∀ c ∈ (Throwing.step tmw ops cn a t).calls, c.error ops = none)
      ∧ ((Throwing.step tmw ops cn a t).calls.map OperatorCall.kind).Sublist [0, 1, 2]
      ∧ ((Throwing.step tmw ops cn a t).thrown = none →
          (Throwing.step tmw ops cn a t).calls.map OperatorCall.kind
            = if ops.isTimeDependent then [0, 1, 2] else [1, 2])
      ∧ (ops.isTimeDependent = false →
          ∀ c ∈ (Throwing.step tmw ops cn a t).calls, c.kind ≠ 0) := by
  rw [Throwing.throwingStep_tmw_irrelevant]
  cases htd : ops.isTimeDependent
  · cases ha : ops.applyTo cn.explicitPart a with
    | error e0 =>
      simp [Throwing.step, Throwing.timeUpdate, Throwing.solveAndAssign,
        OperatorCall.error, OperatorCall.kind, htd, ha]
    | ok b =>
      cases hb : ops.solveFor cn.implicitPart b with
      | error e0 =>
        simp [Throwing.step, Throwing.timeUpdate, Throwing.solveAndAssign,
          OperatorCall.error, OperatorCall.kind, htd, ha, hb]
      | ok x =>
        simp [Throwing.step, Throwing.timeUpdate, Throwing.solveAndAssign,
          OperatorCall.error, OperatorCall.kind, htd, ha, hb]
  · cases hs : ops.setTime t cn.D with
    | error p =>
      obtain ⟨e0, D1⟩ := p
      simp [Throwing.step, Throwing.timeUpdate, Throwing.solveAndAssign,
        OperatorCall.error, OperatorCall.kind, htd, hs]
    | ok D1 =>
      cases ha : ops.applyTo (explicitHalf ops.toOperatorAlgebra cn.dt D1) a with
      | error e0 =>
        simp [Throwing.step, Throwing.timeUpdate, Throwing.solveAndAssign,
          OperatorCall.error, OperatorCall.kind, htd, hs, ha]
      | ok b =>
        cases hb : ops.solveFor (implicitHalf ops.toOperatorAlgebra cn.dt D1) b with
        | error e0 =>
          simp [Throwing.step, Throwing.timeUpdate, Throwing.solveAndAssign,
            OperatorCall.error, OperatorCall.kind, htd, hs, ha, hb]
        | ok x =>
          simp [Throwing.step, Throwing.timeUpdate, Throwing.solveAndAssign,
            OperatorCall.error, OperatorCall.kind, htd, hs, ha, hb]

/-- Witness of C11: the time-constant 1×1 operator multiply by -2 after
`setStep(1)` has the implicit half multiply by 0; a step of `[3]` calls
`applyTo` (which gives `[6]`) and `solveFor`, which throws `singular`, and the
step is left by that exception. -/
theorem step_fails_iff_operator_call_fails_witness :
    (Throwing.step false (Throwing.scalarOperator ℚ false fun _ c => c)
        (CrankNicolson.setStep
          (Throwing.scalarOperator ℚ false fun _ c => c).toOperatorAlgebra ⟨-2, 0, 0, 0⟩ 1)
        3 0).calls = [OperatorCall.applyTo 2 3, OperatorCall.solveFor 0 6]
      ∧ (Throwing.step false (Throwing.scalarOperator ℚ false fun _ c => c)
          (CrankNicolson.setStep
            (Throwing.scalarOperator ℚ false fun _ c => c).toOperatorAlgebra ⟨-2, 0, 0, 0⟩ 1)
          3 0).thrown = some ScalarOperatorError.singular := by
  have hcalls : (Throwing.step false (Throwing.scalarOperator ℚ false fun _ c => c)
      (CrankNicolson.setStep
        (Throwing.scalarOperator ℚ false fun _ c => c).toOperatorAlgebra ⟨-2, 0, 0, 0⟩ 1)
      3 0).calls = [OperatorCall.applyTo 2 3, OperatorCall.solveFor 0 6] := by
    simp [Throwing.step, Throwing.timeUpdate, Throwing.solveAndAssign,
      Throwing.scalarOperator, CrankNicolson.setStep, explicitHalf, implicitHalf]
    norm_num
  refine ⟨hcalls, ((step_fails_iff_operator_call_fails false
    (Throwing.scalarOperator ℚ false fun _ c => c) _ 3 0).1 ScalarOperatorError.singular).2
    ⟨OperatorCall.solveFor 0 6, ?_, ?_⟩⟩
  · rw [hcalls]
    simp
  · simp [OperatorCall.error, Throwing.scalarOperator]

/-- C16: with operator calls that may throw, when `step(a, t)` is left by an
exception (of `explicitPart.applyTo`, of `implicitPart.solveFor`, or of
`setTime`), the caller's array `a` is exactly as it was before the call. For a
time-constant operator the evolver is unchanged as well. For a time-dependent
operator whose `setTime(t)` returned, `D` is the updated operator and both
halves are the ones rebuilt from it, whether or not the step then fails: a
failed step is not atomic on the evolver. -/
theorem failed_step_keeps_array {Err Time Op Arr : Type} [Div Time] [OfNat Time 2]
    (tmw : Bool) (ops : ThrowingOperatorInterface Err Time Op Arr)
    (cn : CrankNicolson Time Op) (a : Arr) (t : Time) :
    (∀ e : Err, (Throwing.step tmw ops cn a t).thrown = some e →
        (Throwing.step tmw ops cn a t).a = a)
      ∧ (ops.isTimeDependent = false → (Throwing.step tmw ops cn a t).evolver = cn)
      ∧ (ops.isTimeDependent = true → ∀ D1 : Op, ops.setTime t cn.D = Except.ok D1 →
          (Throwing.step tmw ops cn a t).evolver
            = ⟨D1, ops.identityMinus (ops.scale (cn.dt / 2) D1),
                ops.identityPlus (ops.scale (cn.dt / 2) D1), cn.dt⟩)
      ∧ (ops.isTimeDependent = true → ∀ (e : Err) (D1 : Op),
          ops.setTime t cn.D = Except.error (e, D1) →
          (Throwing.step tmw ops cn a t).thrown = some e
            ∧ (Throwing.step tmw ops cn a t).evolver
              = ⟨D1, cn.explicitPart, cn.implicitPart, cn.dt⟩) := by
  rw [Throwing.throwingStep_tmw_irrelevant]
  cases htd : ops.isTimeDependent
  · cases ha : ops.applyTo cn.explicitPart a with
    | error e0 =>
      simp [Throwing.step, Throwing.timeUpdate, Throwing.solveAndAssign, htd, ha]
    | ok b =>
      cases hb : ops.solveFor cn.implicitPart b with
      | error e0 =>
        simp [Throwing.step, Throwing.timeUpdate, Throwing.solveAndAssign, htd, ha, hb]
      | ok x =>
        simp [Throwing.step, Throwing.timeUpdate, Throwing.solveAndAssign, htd, ha, hb]
  · cases hs : ops.setTime t cn.D with
    | error p =>
      obtain ⟨e0, D1⟩ := p
      simp [Throwing.step, Throwing.timeUpdate, Throwing.solveAndAssign, htd, hs]
    | ok D1 =>
      cases ha : ops.applyTo (ops.identityMinus (ops.scale (cn.dt / 2) D1)) a with
      | error e0 =>
        simp [Throwing.step, Throwing.timeUpdate, Throwing.solveAndAssign, explicitHalf,
          implicitHalf, htd, hs, ha]
      | ok b =>
        cases hb : ops.solveFor (ops.identityPlus (ops.scale (cn.dt / 2) D1)) b with
        | error e0 =>
          simp [Throwing.step, Throwing.timeUpdate, Throwing.solveAndAssign, explicitHalf,
            implicitHalf, htd, hs, ha, hb]
        | ok x =>
          simp [Throwing.step, Throwing.timeUpdate, Throwing.solveAndAssign, explicitHalf,
            implicitHalf, htd, hs, ha, hb]

/-- Witness of C16: the time-dependent 1×1 operator whose coefficient at time
`t` is `t`, evolver built around `D` = multiply by 5 with `setStep(1)`, step of
`[3]` at `t = -2`. The rebuilt implicit half is multiply by 0 and `solveFor`
throws `singular`: the array is still `[3]`, while the evolver now holds
`D` = multiply by -2 and the halves multiply by 2 and by 0, not the ones it
held before the call. -/
theorem failed_step_keeps_array_witness :
    (Throwing.step false (Throwing.scalarOperator ℚ true fun t _ => t)
        (CrankNicolson.setStep
          (Throwing.scalarOperator ℚ true fun t _ => t).toOperatorAlgebra ⟨5, 0, 0, 0⟩ 1)
        3 (-2)).thrown = some ScalarOperatorError.singular
      ∧ (Throwing.step false (Throwing.scalarOperator ℚ true fun t _ => t)
          (CrankNicolson.setStep
            (Throwing.scalarOperator ℚ true fun t _ => t).toOperatorAlgebra ⟨5, 0, 0, 0⟩ 1)
          3 (-2)).a = 3
      ∧ (Throwing.step false (Throwing.scalarOperator ℚ true fun t _ => t)
          (CrankNicolson.setStep
            (Throwing.scalarOperator ℚ true fun t _ => t).toOperatorAlgebra ⟨5, 0, 0, 0⟩ 1)
          3 (-2)).evolver = ⟨-2, 2, 0, 1⟩
      ∧ CrankNicolson.setStep
          (Throwing.scalarOperator ℚ true fun t _ => t).toOperatorAlgebra ⟨5, 0, 0, 0⟩ 1
        = ⟨5, -3 / 2, 7 / 2, 1⟩ := by
  have hthrown : (Throwing.step false (Throwing.scalarOperator ℚ true fun t _ => t)
      (CrankNicolson.setStep
        (Throwing.scalarOperator ℚ true fun t _ => t).toOperatorAlgebra ⟨5, 0, 0, 0⟩ 1)
      3 (-2)).thrown = some ScalarOperatorError.singular := by
    simp [Throwing.step, Throwing.timeUpdate, Throwing.solveAndAssign,
      Throwing.scalarOperator, CrankNicolson.setStep, explicitHalf, implicitHalf]
  have h := failed_step_keeps_array false (Throwing.scalarOperator ℚ true fun t _ => t)
    (CrankNicolson.setStep
      (Throwing.scalarOperator ℚ true fun t _ => t).toOperatorAlgebra ⟨5, 0, 0, 0⟩ 1)
    3 (-2)
  refine ⟨hthrown, h.1 _ hthrown, ?_, ?_⟩
  · rw [h.2.2.1 rfl (-2) rfl]
    simp only [Throwing.scalarOperator, CrankNicolson.setStep]
    norm_num
  · simp only [Throwing.scalarOperator, CrankNicolson.setStep, explicitHalf, implicitHalf]
    norm_num

/-- C15: a freshly constructed evolver holds the given operator as `D` and
`dt = 0`. For a time-dependent operator, a `step(a, t)` made before any
`setStep` leaves `D` updated to time `t`, `dt = 0`,
`explicitPart = Identity - 0*D` and `implicitPart = Identity + 0*D`; when
`applyTo` of `Identity - 0*D` and `solveFor` of `Identity + 0*D` return their
input, the array is unchanged, and, with calls that may throw, nothing is
thrown. -/
theorem fresh_evolver_timeDependent_step {Err K Op Arr : Type} [Field K] (tmw : Bool)
    (ops : OperatorInterface K Op Arr) (tops : ThrowingOperatorInterface Err K Op Arr)
    (D : Op) (a : Arr) (t : K) :
    (CrankNicolson.init ops.toOperatorAlgebra D).D = D
      ∧ (CrankNicolson.init ops.toOperatorAlgebra D).dt = 0
      ∧ (ops.isTimeDependent = true →
          ((CrankNicolson.init ops.toOperatorAlgebra D).step tmw ops a t).1
              = ⟨ops.setTime t D, ops.identityMinus (ops.scale 0 (ops.setTime t D)),
                  ops.identityPlus (ops.scale 0 (ops.setTime t D)), 0⟩
            ∧ ((∀ v : Arr,
                  ops.applyTo (ops.identityMinus (ops.scale 0 (ops.setTime t D))) v = v) →
                (∀ v : Arr,
                  ops.solveFor (ops.identityPlus (ops.scale 0 (ops.setTime t D))) v = v) →
                ((CrankNicolson.init ops.toOperatorAlgebra D).step tmw ops a t).2 = a))
      ∧ (tops.isTimeDependent = true → ∀ D1 : Op, tops.setTime t D = Except.ok D1 →
          (Throwing.step tmw tops (CrankNicolson.init tops.toOperatorAlgebra D) a t).evolver
              = ⟨D1, tops.identityMinus (tops.scale 0 D1),
                  tops.identityPlus (tops.scale 0 D1), 0⟩
            ∧ (tops.applyTo (tops.identityMinus (tops.scale 0 D1)) a = Except.ok a →
                tops.solveFor (tops.identityPlus (tops.scale 0 D1)) a = Except.ok a →
                (Throwing.step tmw tops (CrankNicolson.init tops.toOperatorAlgebra D) a t).thrown
                    = none
                  ∧ (Throwing.step tmw tops (CrankNicolson.init tops.toOperatorAlgebra D) a
                      t).a = a)) := by
  refine ⟨rfl, rfl, ?_, ?_⟩
  · intro htd
    have hev : ((CrankNicolson.init ops.toOperatorAlgebra D).step tmw ops a t).1
        = ⟨ops.setTime t D, ops.identityMinus (ops.scale 0 (ops.setTime t D)),
            ops.identityPlus (ops.scale 0 (ops.setTime t D)), 0⟩ := by
      rw [step_fst, timeUpdate_timeDependent tmw ops htd]
      simp [CrankNicolson.init]
    refine ⟨hev, fun happly hsolve => ?_⟩
    rw [step_snd, ← step_fst tmw ops _ a t, hev, happly, hsolve]
  · intro htd D1 hs
    rw [Throwing.throwingStep_tmw_irrelevant]
    constructor
    · cases ha : tops.applyTo (tops.identityMinus (tops.scale 0 D1)) a with
      | error e0 =>
        simp [Throwing.step, Throwing.timeUpdate, Throwing.solveAndAssign, explicitHalf,
          implicitHalf, CrankNicolson.init, htd, hs, ha]
      | ok b =>
        cases hb : tops.solveFor (tops.identityPlus (tops.scale 0 D1)) b with
        | error e0 =>
          simp [Throwing.step, Throwing.timeUpdate, Throwing.solveAndAssign, explicitHalf,
            implicitHalf, CrankNicolson.init, htd, hs, ha, hb]
        | ok x =>
          simp [Throwing.step, Throwing.timeUpdate, Throwing.solveAndAssign, explicitHalf,
            implicitHalf, CrankNicolson.init, htd, hs, ha, hb]
    · intro ha hb
      simp [Throwing.step, Throwing.timeUpdate, Throwing.solveAndAssign, explicitHalf,
        implicitHalf, CrankNicolson.init, htd, hs, ha, hb]

/-- Witness of C15: the time-dependent 1×1 operator whose coefficient at time
`t` is `t`, constructed around `D` = multiply by 5 and stepped at once with
`[7]` at `t = 3`: `D` becomes multiply by 3, both halves multiply by 1, and the
array stays `[7]`; with a `solveFor` that can throw, nothing is thrown. -/
theorem fresh_evolver_timeDependent_step_witness :
    (CrankNicolson.step true (scalarOperator ℚ true fun t _ => t)
        (CrankNicolson.init (scalarOperator ℚ true fun t _ => t).toOperatorAlgebra 5) 7 3)
        = (⟨3, 1, 1, 0⟩, 7)
      ∧ (Throwing.step true (Throwing.scalarOperator ℚ true fun t _ => t)
          (CrankNicolson.init (Throwing.scalarOperator ℚ true fun t _ => t).toOperatorAlgebra
            5) 7 3).thrown = none := by
  have h := fresh_evolver_timeDependent_step true (scalarOperator ℚ true fun t _ => t)
    (Throwing.scalarOperator ℚ true fun t _ => t) 5 7 3
  have h3 := h.2.2.1 rfl
  have happly : ∀ v : ℚ, (scalarOperator ℚ true fun t _ => t).applyTo
      ((scalarOperator ℚ true fun t _ => t).identityMinus
        ((scalarOperator ℚ true fun t _ => t).scale 0
          ((scalarOperator ℚ true fun t _ => t).setTime 3 5))) v = v := by
    intro v
    simp [scalarOperator]
  have hsolve : ∀ v : ℚ, (scalarOperator ℚ true fun t _ => t).solveFor
      ((scalarOperator ℚ true fun t _ => t).identityPlus
        ((scalarOperator ℚ true fun t _ => t).scale 0
          ((scalarOperator ℚ true fun t _ => t).setTime 3 5))) v = v := by
    intro v
    simp [scalarOperator]
  constructor
  · refine Prod.ext ?_ (h3.2 happly hsolve)
    rw [h3.1]
    simp [scalarOperator]
  · exact ((h.2.2.2 rfl 3 rfl).2 (by simp [Throwing.scalarOperator])
      (by simp [Throwing.scalarOperator])).1

/-- C12, as amended: the scheme is second-order accurate in time for the
equation `u' = -D u` that it discretises: a step of size `dt` stands for
`exp(-dt*D)`. For a time-constant linear operator `D` obeying the operator
algebra, with an implicit half whose `solveFor` inverts its `applyTo`, start
from a finite sum of eigenvectors `v` of `D` (eigenvalues `λ` of any sign),
whose analytic solution at time `T` is the sum of the `exp(-λ T) v`: `n ≥ 1`
steps of size `dt = T/n` after `setStep(dt)`, with `|dt*λ| ≤ 1`, end within
`C * dt²` of it, where `C`, the sum of the
`(13/18) exp(2|λ T|) |λ|³ |T| ‖v‖`, does not depend on `n`. In the scalar shape
`D` = multiply by `λ`, the one-step multiplier is `(1 - z/2)/(1 + z/2)` with
`z = dt*λ` and differs from the exact propagator `exp(-z)` by at most
`(13/18) |z|³` for `|z| ≤ 1`. -/
theorem second_order_accuracy :
    (∀ (Op E : Type) [NormedAddCommGroup E] [NormedSpace ℝ E] (tmw : Bool)
        (ops : OperatorInterface ℝ Op E) (cn : CrankNicolson ℝ Op) (modes : List (ℝ × E))
        (T : ℝ) (ts : List ℝ),
        ops.isTimeDependent = false →
        HalvesAct ops cn.D →
        (∀ u w : E, ops.applyTo cn.D (u + w) = ops.applyTo cn.D u + ops.applyTo cn.D w) →
        (∀ p ∈ modes, ∀ μ : ℝ, ops.applyTo cn.D (μ • p.2) = (μ * p.1) • p.2) →
        SolveForIsInverse ops (ops.identityPlus (ops.scale (T / ts.length / 2) cn.D)) →
        0 < ts.length →
        (∀ p ∈ modes, |T / ts.length * p.1| ≤ 1) →
        ‖((cn.setStep ops.toOperatorAlgebra (T / ts.length)).steps tmw ops
              (modes.map Prod.snd).sum ts).2
            - (modes.map fun p => Real.exp (-(p.1 * T)) • p.2).sum‖
          ≤ (T / ts.length) ^ 2
            * (modes.map fun p =>
                13 / 18 * Real.exp (2 * |p.1 * T|) * |p.1| ^ 3 * |T| * ‖p.2‖).sum)
      ∧ (∀ (tmw : Bool) (coeffAt : ℝ → ℝ → ℝ) (cn : CrankNicolson ℝ ℝ) (dt t : ℝ),
          |dt * cn.D| ≤ 1 →
          ((cn.setStep (scalarOperator ℝ false coeffAt).toOperatorAlgebra dt).step tmw
              (scalarOperator ℝ false coeffAt) 1 t).2
              = (1 - dt * cn.D / 2) / (1 + dt * cn.D / 2)
            ∧ |((cn.setStep (scalarOperator ℝ false coeffAt).toOperatorAlgebra dt).step tmw
                  (scalarOperator ℝ false coeffAt) 1 t).2 - Real.exp (-(dt * cn.D))|
              ≤ 13 / 18 * |dt * cn.D| ^ 3) := by
  constructor
  · intro Op E _ _ tmw ops cn modes T ts hconst hact hadd heig hinv hn hz
    have hn0 : (0 : ℝ) < ts.length := by exact_mod_cast hn
    have hcur := setStep_halvesCurrent ops.toOperatorAlgebra cn (T / ts.length)
    have hpadd := propagate_add ops (cn.setStep ops.toOperatorAlgebra (T / ts.length))
      hact hadd hcur hinv
    have hiadd := iterate_add_of_add _ hpadd ts.length
    rw [steps_timeConstant tmw ops hconst, add_map_list_sum _ hiadd Prod.snd modes,
      ← List.sum_map_mul_left]
    apply norm_list_sum_sub_le
    intro p hp
    have hzp := abs_le.mp (hz p hp)
    have hden : 1 + (cn.setStep ops.toOperatorAlgebra (T / ts.length)).dt / 2 * p.1 ≠ 0 := by
      have hpos : 0 < 1 + T / ts.length / 2 * p.1 := by linarith [hzp.1]
      exact hpos.ne'
    have hiter := iterate_propagate_eigenvector ops
      (cn.setStep ops.toOperatorAlgebra (T / ts.length)) p.2 p.1 hact (heig p hp) hcur
      hinv.2 hden ts.length 1
    rw [one_smul, mul_one] at hiter
    rw [hiter, ← sub_smul, norm_smul, Real.norm_eq_abs]
    have hb := multiplier_pow_sub_exp_le_general p.1 T ts.length hn (hz p hp)
    calc |((1 - (cn.setStep ops.toOperatorAlgebra (T / ts.length)).dt / 2 * p.1)
            / (1 + (cn.setStep ops.toOperatorAlgebra (T / ts.length)).dt / 2 * p.1))
              ^ ts.length - Real.exp (-(p.1 * T))| * ‖p.2‖
        ≤ 13 / 18 * Real.exp (2 * |p.1 * T|) * |p.1| ^ 3 * |T| * (T / ts.length) ^ 2
            * ‖p.2‖ := mul_le_mul_of_nonneg_right hb (norm_nonneg _)
      _ = (T / ts.length) ^ 2
            * (13 / 18 * Real.exp (2 * |p.1 * T|) * |p.1| ^ 3 * |T| * ‖p.2‖) := by ring
  · intro tmw coeffAt cn dt t hz
    have hmul : (1 - dt / 2 * cn.D) * 1 / (1 + dt / 2 * cn.D)
        = (1 - dt * cn.D / 2) / (1 + dt * cn.D / 2) := by
      rw [mul_one]
      congr 1 <;> ring
    rw [scalar_step_after_setStep]
    simp only [hmul]
    exact ⟨trivial, multiplier_sub_exp_le (dt * cn.D) hz⟩

/-- C12, the claim as written fails, read as the spec reads `D` (a diffusive
operator is negative semidefinite, the equation is `u' = D u`, the exact
propagator over a step is `exp(z)`). For the 1×1 operator `D` = multiply by
`-1`, `T = 1` and the state `[1]`, the analytic solution is `exp(-1) < 1/2`,
while two steps of `dt = 1/2` give `25/9` and, for every `n ≥ 1`, `n` steps of
`dt = 1/n` end more than `1/2` away from it: the error is not `O(dt²)`. And
for `D` = multiply by 1 no constant `C` bounds the distance between the
one-step multiplier and `exp(z)` by `C |z|³` on `|z| ≤ 1`. -/
theorem second_order_accuracy_sign_counterexample :
    ((CrankNicolson.setStep (scalarOperator ℝ false fun _ c => c).toOperatorAlgebra
          (CrankNicolson.init (scalarOperator ℝ false fun _ c => c).toOperatorAlgebra (-1)) (1 / 2)).steps false (scalarOperator ℝ false fun _ c => c) 1
          [0, 0]).2 = 25 / 9
      ∧ Real.exp ((-1 : ℝ) * 1) < 1 / 2
      ∧ (∀ ts : List ℝ, 0 < ts.length →
          1 / 2 < |((CrankNicolson.setStep
                (scalarOperator ℝ false fun _ c => c).toOperatorAlgebra
                (CrankNicolson.init (scalarOperator ℝ false fun _ c => c).toOperatorAlgebra (-1)) (1 / ts.length)).steps false
                (scalarOperator ℝ false fun _ c => c) 1 ts).2 - Real.exp ((-1 : ℝ) * 1)|)
      ∧ ¬ ∃ C : ℝ, ∀ z : ℝ, |z| ≤ 1 →
          |((CrankNicolson.setStep (scalarOperator ℝ false fun _ c => c).toOperatorAlgebra
                (CrankNicolson.init (scalarOperator ℝ false fun _ c => c).toOperatorAlgebra 1) z).step false (scalarOperator ℝ false fun _ c => c) 1 0).2
              - Real.exp (z * 1)| ≤ C * |z| ^ 3 := by
  have hexp : Real.exp ((-1 : ℝ) * 1) < 1 / 2 := by
    have h1 := Real.exp_one_gt_d9
    rw [mul_one, Real.exp_neg, inv_lt_comm₀ (Real.exp_pos 1) (by norm_num)]
    norm_num at h1 ⊢
    linarith
  refine ⟨?_, hexp, ?_, ?_⟩
  · rw [scalar_steps_after_setStep]
    simp only [CrankNicolson.init]
    norm_num
  · intro ts hn
    have hn0 : (0 : ℝ) < ts.length := by exact_mod_cast hn
    have hn1 : (1 : ℝ) ≤ ts.length := by exact_mod_cast hn
    rw [scalar_steps_after_setStep, mul_one]
    simp only [CrankNicolson.init]
    have hinv : 1 / (ts.length : ℝ) ≤ 1 := by
      rw [div_le_one hn0]
      exact hn1
    have hinv0 : 0 < 1 / (ts.length : ℝ) := by positivity
    have hden : 0 < 1 + 1 / (ts.length : ℝ) / 2 * (-1) := by linarith
    have hR : 1 ≤ (1 - 1 / (ts.length : ℝ) / 2 * (-1)) / (1 + 1 / (ts.length : ℝ) / 2 * (-1)) := by
      rw [le_div_iff₀ hden]
      linarith
    have hRn : 1 ≤ ((1 - 1 / (ts.length : ℝ) / 2 * (-1))
        / (1 + 1 / (ts.length : ℝ) / 2 * (-1))) ^ ts.length := one_le_pow₀ hR
    have hlt : 1 / 2 < ((1 - 1 / (ts.length : ℝ) / 2 * (-1))
        / (1 + 1 / (ts.length : ℝ) / 2 * (-1))) ^ ts.length - Real.exp ((-1 : ℝ) * 1) := by
      linarith
    exact lt_of_lt_of_le hlt (le_abs_self _)
  · rintro ⟨C, hC⟩
    have hlow : ∀ z : ℝ, 0 < z → z ≤ 1 → 3 / 2 * z ≤ C * z ^ 3 := by
      intro z hz0 hz1
      have h := hC z (by rw [abs_of_pos hz0]; exact hz1)
      rw [scalar_step_after_setStep, abs_of_pos hz0] at h
      simp only [CrankNicolson.init] at h
      have hden : (1 : ℝ) ≤ 1 + z / 2 * 1 := by linarith
      have hnum : (0 : ℝ) ≤ (1 - z / 2 * 1) * 1 := by linarith
      have hR : (1 - z / 2 * 1) * 1 / (1 + z / 2 * 1) ≤ (1 - z / 2 * 1) * 1 :=
        div_le_self hnum hden
      have hE := Real.add_one_le_exp (z * 1)
      have habs := neg_abs_le ((1 - z / 2 * 1) * 1 / (1 + z / 2 * 1) - Real.exp (z * 1))
      linarith
    have hC1 := hlow 1 one_pos le_rfl
    have hCpos : 0 < C := by linarith
    have hC2 := hlow (1 / C) (by positivity) (by rw [div_le_one hCpos]; linarith)
    have hCne : C ≠ 0 := hCpos.ne'
    have hsimp : C * (1 / C) ^ 3 = (1 / C) * (1 / C) := by
      field_simp
      ring
    rw [hsimp] at hC2
    have hpos : 0 < 1 / C := by positivity
    have hle : 3 / 2 ≤ 1 / C := by
      by_contra hcon
      push_neg at hcon
      nlinarith
    rw [le_div_iff₀ hCpos] at hle
    nlinarith

/-- Witness of C12: the 1×1 operator multiply by -1 over the reals, `T = 1`
in two steps of `dt = 1/2` from the eigenvector `1` (the steps give `25/9`,
the analytic value of `u' = -D u` is `exp(1)`), and the one-step multiplier
for `dt = 1/2`. -/
theorem second_order_accuracy_witness :
    ‖((CrankNicolson.setStep (scalarOperator ℝ false fun _ c => c).toOperatorAlgebra
          ⟨-1, 0, 0, 0⟩ ((1 : ℝ) / (([0, 0] : List ℝ).length : ℝ))).steps false
          (scalarOperator ℝ false fun _ c => c)
          (([((-1 : ℝ), (1 : ℝ))] : List (ℝ × ℝ)).map Prod.snd).sum [0, 0]).2
        - (([((-1 : ℝ), (1 : ℝ))] : List (ℝ × ℝ)).map fun p =>
            Real.exp (-(p.1 * 1)) • p.2).sum‖
        ≤ ((1 : ℝ) / (([0, 0] : List ℝ).length : ℝ)) ^ 2
          * (([((-1 : ℝ), (1 : ℝ))] : List (ℝ × ℝ)).map fun p =>
              13 / 18 * Real.exp (2 * |p.1 * 1|) * |p.1| ^ 3 * |(1 : ℝ)| * ‖p.2‖).sum
      ∧ |((CrankNicolson.setStep (scalarOperator ℝ false fun _ c => c).toOperatorAlgebra
            ⟨-1, 0, 0, 0⟩ (1 / 2)).step false (scalarOperator ℝ false fun _ c => c) 1 0).2
          - Real.exp (-((1 / 2 : ℝ) * (-1)))|
        ≤ 13 / 18 * |(1 / 2 : ℝ) * (-1)| ^ 3 := by
  refine ⟨second_order_accuracy.1 ℝ ℝ false (scalarOperator ℝ false fun _ c => c)
      ⟨-1, 0, 0, 0⟩ [(-1, 1)] 1 [0, 0] rfl ?_ ?_ ?_ ?_ (by simp) ?_,
    (second_order_accuracy.2 false (fun _ c => c) ⟨-1, 0, 0, 0⟩ (1 / 2) 0 ?_).2⟩
  · constructor <;> intro c v <;> simp only [scalarOperator, smul_eq_mul] <;> ring
  · intro u w
    simp only [scalarOperator]
    ring
  · intro p hp μ
    rw [List.mem_singleton] at hp
    subst hp
    simp only [scalarOperator, smul_eq_mul]
    ring
  · constructor
    · intro b
      simp only [scalarOperator, List.length_cons, List.length_nil]
      norm_num
      field_simp
      ring
    · intro v
      simp only [scalarOperator, List.length_cons, List.length_nil]
      norm_num
  · intro p hp
    rw [List.mem_singleton] at hp
    subst hp
    simp only [List.length_cons, List.length_nil]
    norm_num [abs_of_pos]
  · norm_num [abs_of_pos]

end FiniteDifferences
end QuantLib
